import Mathlib

/-!
Verification of the VOR engine and trade generator of the Fantasy-pros app.

The Python sources (`src/vor.py`, `src/trade.py`, `src/models.py`) are embedded
shallowly below: floats become rationals, Python `Dict[str, float]` maps with a
`.get(key, 0.0)` access pattern become functions `String → ℚ`, dictionaries
whose key sets matter become association lists, and code paths that can raise
(`IndexError` from list indexing) return `Except String`.  Python's stable
`list.sort(key=..., reverse=True)` is modelled by `List.insertionSort` with the
reflexive descending order, which is also stable.  `int(x)` truncates toward
zero, `round(x, 1)` rounds half-to-even at one decimal, and both are modelled
exactly on ℚ.
-/

deriving instance DecidableEq for Except

namespace FantasyTrade

/-- The closed position set accepted by `Player.validate_position` in
`src/models.py`. -/
inductive Pos where
  | QB | RB | WR | TE | K | DST | DEF
deriving DecidableEq, Repr

/-- String form of a position, as used in the Python string constants. -/
def Pos.str : Pos → String
  | .QB => "QB" | .RB => "RB" | .WR => "WR" | .TE => "TE"
  | .K => "K" | .DST => "DST" | .DEF => "DEF"

/-- `Player` from `src/models.py` (the fields the VOR/trade engine reads). -/
structure Player where
  id : String
  name : String
  position : Pos
  team : String
  fp_slug : Option String := none
deriving DecidableEq, Repr

/-- `FantasyProPlayer` from `src/models.py` (the fields the engine reads). -/
structure FantasyProPlayer where
  player_name : String
  position : Pos
  team : String
  fp_slug : Option String := none
  ecr_rank : ℕ := 1
  ros_points : ℚ
deriving DecidableEq, Repr

/-- `RosterSlots` from `src/models.py`.  All slot counts are validated
non-negative integers, so they are naturals here. -/
structure RosterSlots where
  QB : ℕ := 1
  RB : ℕ := 2
  WR : ℕ := 2
  TE : ℕ := 1
  FLEX : ℕ := 1
  SUPERFLEX : ℕ := 0
  BENCH : ℕ := 6
deriving DecidableEq, Repr

/-- `getattr(roster_slots, position, 0)`: `RosterSlots` has no `K`/`DST`/`DEF`
fields, so those positions read as `0`. -/
def RosterSlots.getPos (rs : RosterSlots) : Pos → ℕ
  | .QB => rs.QB | .RB => rs.RB | .WR => rs.WR | .TE => rs.TE
  | .K => 0 | .DST => 0 | .DEF => 0

/-- `Roster` from `src/models.py`. -/
structure Roster where
  team_id : String
  players : List Player
deriving DecidableEq, Repr

/-- `Scoring` from `src/models.py` (unused by the VOR math, kept for the
`calculate_vor` signature). -/
structure Scoring where
  format : String := "PPR"
  pass_td : ℕ := 4
deriving DecidableEq, Repr

/-- `TradePlayer` from `src/models.py`. -/
structure TradePlayer where
  player : String
  pos : Pos
  vor : ℚ
deriving DecidableEq, Repr

/-- `TradeIdea` from `src/models.py`. -/
structure TradeIdea where
  send : List TradePlayer
  receive : List TradePlayer
  score_me : ℚ
  score_them : ℚ
  notes : String
deriving DecidableEq, Repr

/-- `VORCalculator.position_order` (`src/vor.py` line 21). -/
def positionOrder : List Pos := [.QB, .RB, .WR, .TE, .K, .DST]

/-- `VORCalculator.flex_positions` (`src/vor.py` line 22). -/
def flexPositions : List Pos := [.RB, .WR, .TE]

/-- Python `int(x)` applied to a float: truncation toward zero. -/
def truncQ (q : ℚ) : ℤ := if 0 ≤ q then ⌊q⌋ else ⌈q⌉

/-- Python `round(x)` for x scaled to an integer target: round half to even. -/
def roundHalfEven (x : ℚ) : ℤ :=
  let n := ⌊x⌋
  let r := x - n
  if r < 1/2 then n
  else if 1/2 < r then n + 1
  else if n % 2 = 0 then n else n + 1

/-- Python `round(x, 1)`: round to the nearest multiple of `1/10`, half to
even. -/
def pyRound1 (q : ℚ) : ℚ := (roundHalfEven (10 * q) : ℚ) / 10

/-- Python truthiness of an `Optional[str]`: `None` and `""` are falsy. -/
def truthyStr : Option String → Bool
  | none => false
  | some s => s ≠ ""

/-- Python `str.upper()` (ASCII, as used for the status keys). -/
def pyUpper (s : String) : String := ⟨s.data.map Char.toUpper⟩

/-- Stable descending sort by a rational key: model of Python's
`list.sort(key=..., reverse=True)`. -/
def sortDescBy (key : α → ℚ) (l : List α) : List α :=
  l.insertionSort (fun a b => key b ≤ key a)

/-- Python list indexing `l[i]`: non-negative indices from the front, negative
indices from the back, `IndexError` out of range. -/
def pyIndex {α : Type} (l : List α) (i : ℤ) : Except String α :=
  if 0 ≤ i then
    match l[i.toNat]? with
    | some x => .ok x
    | none => .error "IndexError"
  else
    let j := i + l.length
    if 0 ≤ j then
      match l[j.toNat]? with
      | some x => .ok x
      | none => .error "IndexError"
    else .error "IndexError"

/-- The players of one position in projection input order:
`_group_players_by_position` (`src/vor.py` lines 58-71) groups players in
input order, so each group equals a positional filter of the input. -/
def posGroup (pos : Pos) (fp_players : List FantasyProPlayer) :
    List FantasyProPlayer :=
  fp_players.filter (fun f => f.position = pos)

/-- A positional group sorted by `ros_points` descending (`src/vor.py`
lines 67-69). -/
def rankedGroup (pos : Pos) (fp_players : List FantasyProPlayer) :
    List FantasyProPlayer :=
  sortDescBy (·.ros_points) (posGroup pos fp_players)

/-- `VORCalculator._calculate_position_baseline` (`src/vor.py` lines 73-100).
`int(...)` truncates toward zero and a negative `replacement_rank` smaller than
the group length reaches Python's negative indexing. -/
def _calculate_position_baseline (pos : Pos)
    (position_players : List FantasyProPlayer) (roster_slots : RosterSlots)
    (num_teams : ℤ) (buffer_percentage : ℚ) : Except String ℚ :=
  if position_players.isEmpty then .ok 0
  else
    let base_starters := roster_slots.getPos pos
    let flex_starters :=
      if pos ∈ flexPositions then roster_slots.FLEX / flexPositions.length else 0
    let total_starters : ℤ := (base_starters + flex_starters : ℕ) * num_teams
    let replacement_rank : ℤ :=
      truncQ ((total_starters : ℚ) * (1 + buffer_percentage))
    if replacement_rank < (position_players.length : ℤ) then
      (pyIndex position_players replacement_rank).map (·.ros_points)
    else
      match position_players.getLast? with
      | some p => .ok p.ros_points
      | none => .ok 0

/-- The per-position loop of `VORCalculator.calculate_replacement_baselines`
(`src/vor.py` lines 49-54), aborting at the first raised error. -/
def baselinesLoop (fp_players : List FantasyProPlayer)
    (roster_slots : RosterSlots) (num_teams : ℤ) (buffer : ℚ) :
    List Pos → Except String (List (Pos × ℚ))
  | [] => .ok []
  | p :: rest => do
    let b ← _calculate_position_baseline p (rankedGroup p fp_players)
      roster_slots num_teams buffer
    let r ← baselinesLoop fp_players roster_slots num_teams buffer rest
    .ok ((p, b) :: r)

/-- `VORCalculator.calculate_replacement_baselines` (`src/vor.py`
lines 24-56): a `None` buffer defaults to `DEFAULT_BUFFER_PERCENTAGE = 0.1`,
and the returned dict has exactly the keys of `position_order` in order. -/
def calculate_replacement_baselines (fp_players : List FantasyProPlayer)
    (roster_slots : RosterSlots) (num_teams : ℤ)
    (buffer_percentage : Option ℚ) : Except String (List (Pos × ℚ)) :=
  let buffer := buffer_percentage.getD (1/10)
  baselinesLoop fp_players roster_slots num_teams buffer positionOrder

/-- The replacement baseline for one position as the specification words it:
players of the position ordered by rest-of-season points descending (stable),
starter demand `(slots[pos] + FLEX // 3 for flex-eligible positions) *
num_teams`, replacement index `floor(demand * (1 + buffer))`, the points at
that 0-based index when it is within range, else the last player's points, and
`0.0` for an empty position. -/
def specBaseline (pos : Pos) (fp_players : List FantasyProPlayer)
    (slots : RosterSlots) (num_teams : ℤ) (buffer : ℚ) : ℚ :=
  let ranked := rankedGroup pos fp_players
  if ranked.isEmpty then 0
  else
    let starterDemand : ℤ :=
      (slots.getPos pos +
        (if pos = .RB ∨ pos = .WR ∨ pos = .TE then slots.FLEX / 3 else 0) : ℕ) * num_teams
    let idx : ℤ := ⌊(starterDemand : ℚ) * (1 + buffer)⌋
    if h : 0 ≤ idx ∧ idx.toNat < ranked.length then
      (ranked.get ⟨idx.toNat, h.2⟩).ros_points
    else
      ((ranked.getLast?.map (·.ros_points)).getD 0)

/-- Looking a position up in a baseline map result, `0` when absent —
`baselines.get(position, 0.0)` on the `calculate_replacement_baselines`
output. -/
def baselineFor (r : Except String (List (Pos × ℚ))) (pos : Pos) : ℚ :=
  match r with
  | .ok l => ((l.find? (fun kv => kv.1 = pos)).map (·.2)).getD 0
  | .error _ => 0

/-- `VORCalculator.INJURY_PENALTIES` (`src/vor.py` lines 13-18). -/
def INJURY_PENALTIES : List (String × ℚ) :=
  [("OUT", 1), ("DOUBTFUL", 7/10), ("QUESTIONABLE", 3/20), ("PROBABLE", 1/20)]

/-- `VORCalculator.apply_injury_penalty` (`src/vor.py` lines 229-248).  The
`if not injury_status` guard returns the VOR unchanged for `None` and `""`. -/
def apply_injury_penalty (vor : ℚ) (injury_status : Option String) : ℚ :=
  match injury_status with
  | none => vor
  | some s =>
    if s = "" then vor
    else
      let status := pyUpper s
      match INJURY_PENALTIES.find? (fun kv => kv.1 = status) with
      | some kv => vor * (1 - kv.2)
      | none => vor

/-! ### Lineup optimizer (`VORCalculator.calculate_lineup_vor`,
`src/vor.py` lines 174-227) -/

/-- Roster players of one position, in roster order, as grouped by the
per-position dict of `calculate_lineup_vor` (`src/vor.py` lines 184-191). -/
def playersOfPos (pos : Pos) (players : List Player) : List Player :=
  players.filter (fun p => p.position = pos)

/-- A positional group sorted by VOR descending (`src/vor.py`
lines 193-195). -/
def sortedPos (vor : String → ℚ) (pos : Pos) (players : List Player) :
    List Player :=
  sortDescBy (fun p => vor p.id) (playersOfPos pos players)

/-- One position of the fixed-slot fill loop (`src/vor.py` lines 200-209):
walk the first `required` entries of the sorted availability list and keep
each one whose id is not already used.  The selected list stands for the
Python accumulators: `used_players` is its image under `.id` and `total_vor`
its VOR sum. -/
def fixedStep (vor : String → ℚ) (slots : RosterSlots) (players : List Player)
    (sel : List Player) (pos : Pos) : List Player :=
  ((sortedPos vor pos players).take (slots.getPos pos)).foldl
    (fun sel p => if p.id ∈ sel.map (·.id) then sel else sel ++ [p]) sel

/-- The fixed-position selections of `calculate_lineup_vor`. -/
def lineupFixed (players : List Player) (vor : String → ℚ)
    (slots : RosterSlots) : List Player :=
  positionOrder.foldl (fixedStep vor slots players) []

/-- The FLEX candidate pool (`src/vor.py` lines 211-217): unused players of
the flex positions, per position in sorted order. -/
def flexCandidates (players : List Player) (vor : String → ℚ)
    (slots : RosterSlots) : List Player :=
  let used := (lineupFixed players vor slots).map (·.id)
  flexPositions.flatMap (fun pos =>
    (sortedPos vor pos players).filter (fun p => p.id ∉ used))

/-- All selected players: the fixed fills followed by the top `FLEX` of the
candidate pool sorted by VOR descending (`src/vor.py` lines 219-225; the FLEX
loop performs no further used-id check). -/
def lineupSelection (players : List Player) (vor : String → ℚ)
    (slots : RosterSlots) : List Player :=
  lineupFixed players vor slots ++
    (sortDescBy (fun p => vor p.id)
      (flexCandidates players vor slots)).take slots.FLEX

/-- The VOR of a list of players under a VOR map (`vor_values.get(id, 0.0)`
summed). -/
def sumVor (vor : String → ℚ) (l : List Player) : ℚ :=
  (l.map (fun p => vor p.id)).sum

/-- `VORCalculator.calculate_lineup_vor` (`src/vor.py` lines 174-227):
`total_vor` accumulates exactly the VOR of the selected players. -/
def calculate_lineup_vor (lineup_players : List Player)
    (vor_values : String → ℚ) (roster_slots : RosterSlots) : ℚ :=
  sumVor vor_values (lineupSelection lineup_players vor_values roster_slots)

/-- Number of players of a position in a list. -/
def countPos (pos : Pos) (l : List Player) : ℕ :=
  (l.filter (fun p => p.position = pos)).length

/-- A feasible starting lineup in the sense of the claims: a set of fixed-slot
players `F` (players of each position bounded by that position's slot count,
`K`/`DST` having no `RosterSlots` field and so count `0`) together with FLEX
players `X` drawn from the flex-eligible positions, no entry used twice. -/
def FeasibleLineup (slots : RosterSlots) (S : List Player) : Prop :=
  ∃ F X : List Player, List.Perm S (F ++ X) ∧
    (∀ pos : Pos, countPos pos F ≤ slots.getPos pos) ∧
    (∀ x ∈ X, x.position ∈ flexPositions) ∧
    X.length ≤ slots.FLEX

/-- All seven positions of the closed position set. -/
def allPositions : List Pos := [.QB, .RB, .WR, .TE, .K, .DST, .DEF]

/-! ### VOR scorer (`VORCalculator.calculate_vor`, `src/vor.py`
lines 102-149) -/

/-- The FantasyPros lookup dict (`src/vor.py` lines 119-122): keyed by truthy
slug, later entries overwrite earlier ones, so lookup returns the last
match. -/
def fp_lookup (fp_players : List FantasyProPlayer) (s : String) :
    Option FantasyProPlayer :=
  fp_players.foldl (fun acc fp =>
    match fp.fp_slug with
    | some t => if t ≠ "" ∧ t = s then some fp else acc
    | none => acc) none

/-- The VOR computed for one player inside the loop of `calculate_vor`
(`src/vor.py` lines 126-147): `baselines.get(position, 0.0)` falls back to
`0.0` for positions absent from the baseline map, the optional TE premium adds
a tenth of the projected points, and the result is clamped at zero. -/
def playerVor (baselines : List (Pos × ℚ))
    (fp_players : List FantasyProPlayer) (te_premium : Bool) (p : Player) :
    ℚ :=
  match p.fp_slug with
  | some s =>
    if s ≠ "" then
      match fp_lookup fp_players s with
      | some fp =>
        let baseline := ((baselines.find? (fun kv => kv.1 = p.position)).map
          (·.2)).getD 0
        let raw_vor := fp.ros_points - baseline
        let raw_vor :=
          if te_premium ∧ p.position = .TE then
            raw_vor + fp.ros_points * (1/10)
          else raw_vor
        max raw_vor 0
      | none => 0
    else 0
  | none => 0

/-- Python dict insertion with overwrite (`vor_values[player.id] = ...`). -/
def dictSet (l : List (String × ℚ)) (k : String) (v : ℚ) :
    List (String × ℚ) :=
  if l.any (fun kv => kv.1 = k) then
    l.map (fun kv => if kv.1 = k then (k, v) else kv)
  else l ++ [(k, v)]

/-- `VORCalculator.calculate_vor` (`src/vor.py` lines 102-149).  The
`scoring` argument is accepted and never read, as in the source; the baseline
call uses the default buffer. -/
def calculate_vor (players : List Player)
    (fp_players : List FantasyProPlayer) (roster_slots : RosterSlots)
    (scoring : Scoring) (te_premium : Bool) (num_teams : ℤ) :
    Except String (List (String × ℚ)) :=
  (calculate_replacement_baselines fp_players roster_slots num_teams
    none).map (fun baselines =>
      players.foldl (fun acc p =>
        dictSet acc p.id (playerVor baselines fp_players te_premium p)) [])

/-! ### Trade analyzer (`src/trade.py`) -/

/-- `TradeAnalyzer.DEFAULT_MIN_IMPROVEMENT` (`src/trade.py` line 11), the
value `__init__` stores in `min_improvement_threshold`. -/
def min_improvement_threshold : ℚ := 1

/-- `TradeAnalyzer.DEFAULT_MAX_RESULTS` (`src/trade.py` line 13). -/
def DEFAULT_MAX_RESULTS : ℕ := 50

/-- `TradeAnalyzer.BALANCED_TRADE_THRESHOLD` (`src/trade.py` line 14). -/
def BALANCED_TRADE_THRESHOLD : ℚ := 1

/-- Python `"{:.1f}".format` of an already-rounded tenth (used only in the
unreachable fallback note). -/
def fmt1 (q : ℚ) : String :=
  let n := roundHalfEven (10 * q)
  (if n < 0 then "-" else "") ++ toString (n.natAbs / 10) ++ "." ++
    toString (n.natAbs % 10)

/-- `TradeAnalyzer._generate_trade_notes` (`src/trade.py` lines 228-263). -/
def _generate_trade_notes (my_players their_players : List Player)
    (my_improvement their_improvement : ℚ) : String :=
  let my_positions := my_players.map (·.position)
  let their_positions := their_players.map (·.position)
  let posNotes : List String :=
    match my_positions.dedup, their_positions.dedup with
    | [p], [q] =>
      if p ≠ q then
        ["You get " ++ q.str ++ " help, they get " ++ p.str ++ " depth"]
      else []
    | _, _ => []
  let balanceNotes : List String :=
    if abs (my_improvement - their_improvement) < BALANCED_TRADE_THRESHOLD then
      ["Balanced trade benefits both teams equally"]
    else if their_improvement < my_improvement then
      ["Slight advantage to you"]
    else ["Slight advantage to them"]
  let byeNotes : List String :=
    if (my_players.filter (fun p => p.team ≠ "")).any (fun p =>
        (their_players.filter (fun q => q.team ≠ "")).any (fun q =>
          q.team = p.team)) then
      ["Watch for bye week conflicts"]
    else []
  let notes := posNotes ++ balanceNotes ++ byeNotes
  let notes :=
    if notes = [] then
      ["Mutual benefit: +" ++ fmt1 my_improvement ++ " for you, +" ++
        fmt1 their_improvement ++ " for them"]
    else notes
  String.intercalate "; " notes

/-- `TradeAnalyzer._evaluate_trade` (`src/trade.py` lines 156-226): both
sides' optimal-lineup improvement must reach the minimum threshold, and the
recorded scores are the improvements rounded to one decimal. -/
def _evaluate_trade (my_players their_players : List Player)
    (my_roster their_roster : Roster) (vor_values : String → ℚ)
    (roster_slots : RosterSlots) : Option TradeIdea :=
  let my_current_vor :=
    calculate_lineup_vor my_roster.players vor_values roster_slots
  let their_current_vor :=
    calculate_lineup_vor their_roster.players vor_values roster_slots
  let my_post_trade := (my_roster.players.filter (fun p =>
      p.id ∉ my_players.map (·.id))) ++ their_players
  let their_post_trade := (their_roster.players.filter (fun p =>
      p.id ∉ their_players.map (·.id))) ++ my_players
  let my_new_vor :=
    calculate_lineup_vor my_post_trade vor_values roster_slots
  let their_new_vor :=
    calculate_lineup_vor their_post_trade vor_values roster_slots
  let my_improvement := my_new_vor - my_current_vor
  let their_improvement := their_new_vor - their_current_vor
  if min_improvement_threshold ≤ my_improvement ∧
      min_improvement_threshold ≤ their_improvement then
    some
      { send := my_players.map (fun p =>
          ⟨p.name, p.position, vor_values p.id⟩),
        receive := their_players.map (fun p =>
          ⟨p.name, p.position, vor_values p.id⟩),
        score_me := pyRound1 my_improvement,
        score_them := pyRound1 their_improvement,
        notes := _generate_trade_notes my_players their_players
          my_improvement their_improvement }
  else none

/-- `itertools.combinations(l, 2)` in generation order. -/
def combos2 {α : Type} : List α → List (List α)
  | [] => []
  | x :: xs => xs.map (fun y => [x, y]) ++ combos2 xs

/-- `TradeAnalyzer._generate_single_player_trades` (`src/trade.py`
lines 98-111). -/
def _generate_single_player_trades (my_players their_players : List Player)
    (my_roster their_roster : Roster) (vor_values : String → ℚ)
    (roster_slots : RosterSlots) : List TradeIdea :=
  my_players.flatMap (fun mp =>
    their_players.filterMap (fun tp =>
      _evaluate_trade [mp] [tp] my_roster their_roster vor_values
        roster_slots))

/-- `TradeAnalyzer._generate_uneven_trades` (`src/trade.py`
lines 113-139). -/
def _generate_uneven_trades (my_players their_players : List Player)
    (my_roster their_roster : Roster) (vor_values : String → ℚ)
    (roster_slots : RosterSlots) : List TradeIdea :=
  (combos2 my_players).flatMap (fun mc =>
    their_players.filterMap (fun tp =>
      _evaluate_trade mc [tp] my_roster their_roster vor_values
        roster_slots))
  ++ my_players.flatMap (fun mp =>
    (combos2 their_players).filterMap (fun tc =>
      _evaluate_trade [mp] tc my_roster their_roster vor_values
        roster_slots))

/-- `TradeAnalyzer._generate_even_multi_player_trades` (`src/trade.py`
lines 141-154). -/
def _generate_even_multi_player_trades
    (my_players their_players : List Player)
    (my_roster their_roster : Roster) (vor_values : String → ℚ)
    (roster_slots : RosterSlots) : List TradeIdea :=
  (combos2 my_players).flatMap (fun mc =>
    (combos2 their_players).filterMap (fun tc =>
      _evaluate_trade mc tc my_roster their_roster vor_values roster_slots))

/-- `TradeAnalyzer._generate_team_trades` (`src/trade.py` lines 64-96): both
candidate pools are restricted to strictly positive VOR. -/
def _generate_team_trades (my_roster their_roster : Roster)
    (vor_values : String → ℚ) (roster_slots : RosterSlots)
    (max_players_per_side : ℕ) (consider_2_for_1 : Bool) : List TradeIdea :=
  let my_players := my_roster.players.filter (fun p => 0 < vor_values p.id)
  let their_players :=
    their_roster.players.filter (fun p => 0 < vor_values p.id)
  _generate_single_player_trades my_players their_players my_roster
    their_roster vor_values roster_slots
  ++ (if consider_2_for_1 ∧ 2 ≤ max_players_per_side then
      _generate_uneven_trades my_players their_players my_roster their_roster
        vor_values roster_slots
    else [])
  ++ (if 2 ≤ max_players_per_side then
      _generate_even_multi_player_trades my_players their_players my_roster
        their_roster vor_values roster_slots
    else [])

/-- `TradeAnalyzer.generate_trade_ideas` (`src/trade.py` lines 24-62):
trades against every other roster, sorted by combined benefit descending
(stable), capped at `DEFAULT_MAX_RESULTS`. -/
def generate_trade_ideas (my_roster : Roster) (all_rosters : List Roster)
    (vor_values : String → ℚ) (roster_slots : RosterSlots)
    (max_players_per_side : ℕ) (consider_2_for_1 : Bool) : List TradeIdea :=
  let other_rosters :=
    all_rosters.filter (fun r => r.team_id ≠ my_roster.team_id)
  let trade_ideas := other_rosters.flatMap (fun o =>
    _generate_team_trades my_roster o vor_values roster_slots
      max_players_per_side consider_2_for_1)
  (sortDescBy (fun t => t.score_me + t.score_them) trade_ideas).take
    DEFAULT_MAX_RESULTS

/-! ### Concrete inputs used by witnesses and counterexamples -/

/-- Projection data used by the C5 theorems: three ranked quarterbacks. -/
def c5fps : List FantasyProPlayer :=
  [⟨"Alpha", .QB, "AA", none, 1, 10⟩,
   ⟨"Beta", .QB, "BB", none, 2, 5⟩,
   ⟨"Gamma", .QB, "CC", none, 3, 1⟩]

end FantasyTrade

namespace FantasyTrade

/-- C10: `apply_injury_penalty` zeroes VOR for `OUT` in any letter case,
multiplies by `1 - f` with `f = 0.7, 0.15, 0.05` for `DOUBTFUL`,
`QUESTIONABLE`, `PROBABLE`, and leaves the value unchanged for `None` and for
every other status (including the model-valid `HEALTHY`, `IR`, `PUP`). -/
theorem C10_injury_penalty (v : ℚ) :
    apply_injury_penalty v none = v ∧
    (∀ s : String, pyUpper s = "OUT" → apply_injury_penalty v (some s) = 0) ∧
    (∀ s : String, pyUpper s = "DOUBTFUL" →
      apply_injury_penalty v (some s) = v * (1 - 7/10)) ∧
    (∀ s : String, pyUpper s = "QUESTIONABLE" →
      apply_injury_penalty v (some s) = v * (1 - 3/20)) ∧
    (∀ s : String, pyUpper s = "PROBABLE" →
      apply_injury_penalty v (some s) = v * (1 - 1/20)) ∧
    (∀ s : String,
      pyUpper s ∉ (["OUT", "DOUBTFUL", "QUESTIONABLE", "PROBABLE"] : List String) →
      apply_injury_penalty v (some s) = v) ∧
    apply_injury_penalty v (some "HEALTHY") = v ∧
    apply_injury_penalty v (some "IR") = v ∧
    apply_injury_penalty v (some "PUP") = v := by
  have hempty : pyUpper "" = "" := by decide
  refine ⟨rfl, ?_, ?_, ?_, ?_, ?_, ?_, ?_, ?_⟩
  · intro s hs
    have hne : s ≠ "" := by
      intro h; rw [h, hempty] at hs; exact absurd hs (by decide)
    simp only [apply_injury_penalty, if_neg hne, INJURY_PENALTIES, hs, List.find?]
    norm_num
  · intro s hs
    have hne : s ≠ "" := by
      intro h; rw [h, hempty] at hs; exact absurd hs (by decide)
    simp only [apply_injury_penalty, if_neg hne, INJURY_PENALTIES, hs, List.find?]
    rfl
  · intro s hs
    have hne : s ≠ "" := by
      intro h; rw [h, hempty] at hs; exact absurd hs (by decide)
    simp only [apply_injury_penalty, if_neg hne, INJURY_PENALTIES, hs, List.find?]
    rfl
  · intro s hs
    have hne : s ≠ "" := by
      intro h; rw [h, hempty] at hs; exact absurd hs (by decide)
    simp only [apply_injury_penalty, if_neg hne, INJURY_PENALTIES, hs, List.find?]
    rfl
  · intro s hs
    simp only [List.mem_cons, List.not_mem_nil, or_false, not_or] at hs
    by_cases hne : s = ""
    · simp [apply_injury_penalty, hne]
    · simp [apply_injury_penalty, if_neg hne, INJURY_PENALTIES, List.find?,
        Ne.symm hs.1, Ne.symm hs.2.1, Ne.symm hs.2.2.1, Ne.symm hs.2.2.2]
  · have h : pyUpper "HEALTHY" = "HEALTHY" := by decide
    simp [apply_injury_penalty, INJURY_PENALTIES, List.find?, h]
  · have h : pyUpper "IR" = "IR" := by decide
    simp [apply_injury_penalty, INJURY_PENALTIES, List.find?, h]
  · have h : pyUpper "PUP" = "PUP" := by decide
    simp [apply_injury_penalty, INJURY_PENALTIES, List.find?, h]

/-- Witness for C10 at concrete inputs: lowercase "out" is zeroed and a status
in the table in lowercase gets its tabled penalty. -/
theorem C10_injury_penalty_witness :
    apply_injury_penalty 5 (some "out") = 0 ∧
    apply_injury_penalty 5 (some "questionable") = 5 * (1 - 3/20) ∧
    apply_injury_penalty 5 none = 5 :=
  ⟨(C10_injury_penalty 5).2.1 "out" (by decide),
   (C10_injury_penalty 5).2.2.2.1 "questionable" (by decide),
   (C10_injury_penalty 5).1⟩

/-! ### Baseline calculator: supporting lemmas -/

lemma truncQ_of_nonneg {q : ℚ} (h : 0 ≤ q) : truncQ q = ⌊q⌋ := if_pos h

lemma sortDescBy_perm (key : α → ℚ) (l : List α) :
    List.Perm (sortDescBy key l) l :=
  List.perm_insertionSort _ l

lemma sortDescBy_sorted (key : α → ℚ) (l : List α) :
    (sortDescBy key l).Pairwise (fun a b => key b ≤ key a) := by
  haveI : IsTotal α (fun a b => key b ≤ key a) :=
    ⟨fun a b => le_total (key b) (key a)⟩
  haveI : IsTrans α (fun a b => key b ≤ key a) :=
    ⟨fun a b c h1 h2 => le_trans h2 h1⟩
  exact List.sorted_insertionSort _ l

lemma flex_mem_iff (pos : Pos) :
    pos ∈ flexPositions ↔ (pos = .RB ∨ pos = .WR ∨ pos = .TE) := by
  cases pos <;> simp [flexPositions]

/-- On non-negative team counts and buffers the Python branch structure of
`_calculate_position_baseline` computes exactly the specification formula. -/
lemma position_baseline_eq_spec (pos : Pos) (fps : List FantasyProPlayer)
    (slots : RosterSlots) (nt : ℤ) (buf : ℚ) (hnt : 0 ≤ nt) (hbuf : 0 ≤ buf) :
    _calculate_position_baseline pos (rankedGroup pos fps) slots nt buf
      = .ok (specBaseline pos fps slots nt buf) := by
  unfold _calculate_position_baseline specBaseline
  by_cases hemp : (rankedGroup pos fps).isEmpty
  · simp [hemp]
  · simp only [hemp, Bool.false_eq_true, if_false]
    have hdemand :
        (slots.getPos pos +
            (if pos ∈ flexPositions then slots.FLEX / flexPositions.length else 0) : ℕ)
          = (slots.getPos pos +
            (if pos = .RB ∨ pos = .WR ∨ pos = .TE then slots.FLEX / 3 else 0) : ℕ) := by
      by_cases hf : pos ∈ flexPositions
      · rw [if_pos hf, if_pos ((flex_mem_iff pos).mp hf)]; rfl
      · rw [if_neg hf, if_neg (fun h => hf ((flex_mem_iff pos).mpr h))]
    rw [hdemand]
    set k : ℕ := (slots.getPos pos +
      (if pos = .RB ∨ pos = .WR ∨ pos = .TE then slots.FLEX / 3 else 0) : ℕ) with hk
    have hd0 : (0:ℤ) ≤ (k : ℤ) * nt := mul_nonneg (Int.ofNat_nonneg k) hnt
    have hq0 : (0:ℚ) ≤ ((k : ℤ) * nt : ℤ) * (1 + buf) := by
      apply mul_nonneg
      · exact_mod_cast hd0
      · linarith
    rw [truncQ_of_nonneg hq0]
    set idx : ℤ := ⌊(((k : ℤ) * nt : ℤ) : ℚ) * (1 + buf)⌋ with hidx
    have hidx0 : 0 ≤ idx := Int.le_floor.mpr (by exact_mod_cast hq0)
    by_cases hlt : idx < ((rankedGroup pos fps).length : ℤ)
    · have htn : idx.toNat < (rankedGroup pos fps).length := by omega
      rw [if_pos hlt, dif_pos ⟨hidx0, htn⟩]
      unfold pyIndex
      rw [if_pos hidx0]
      rw [List.getElem?_eq_getElem htn]
      rfl
    · have htn : ¬ idx.toNat < (rankedGroup pos fps).length := by omega
      rw [if_neg hlt, dif_neg (fun h => htn h.2)]
      have hne : rankedGroup pos fps ≠ [] := by
        simpa [List.isEmpty_iff] using hemp
      rw [List.getLast?_eq_getLast _ hne]
      rfl

lemma baselinesLoop_eq (fps : List FantasyProPlayer) (slots : RosterSlots)
    (nt : ℤ) (buf : ℚ) (hnt : 0 ≤ nt) (hbuf : 0 ≤ buf) (L : List Pos) :
    baselinesLoop fps slots nt buf L
      = .ok (L.map (fun p => (p, specBaseline p fps slots nt buf))) := by
  induction L with
  | nil => rfl
  | cons p rest ih =>
    simp only [baselinesLoop, position_baseline_eq_spec p fps slots nt buf hnt hbuf,
      ih, List.map_cons]
    rfl

/-- Shared closed form of the baseline map for non-negative configurations. -/
lemma calculate_replacement_baselines_eq (fps : List FantasyProPlayer)
    (slots : RosterSlots) (nt : ℤ) (buf : ℚ) (hnt : 0 ≤ nt) (hbuf : 0 ≤ buf) :
    calculate_replacement_baselines fps slots nt (some buf)
      = .ok (positionOrder.map (fun p => (p, specBaseline p fps slots nt buf))) :=
  baselinesLoop_eq fps slots nt buf hnt hbuf positionOrder

/-- C5: with the position's players sorted by points descending, starter
demand `(slots[pos] + FLEX // 3 for flex positions) * num_teams`, replacement
index `floor(demand * (1 + buffer))`, in-range index else last player, `0.0`
for an empty position — as amended: this holds for non-negative `num_teams`
and buffer; for negative `num_teams` the code truncates toward zero and uses
Python negative indexing instead. -/
theorem C5_baseline_formula (fps : List FantasyProPlayer)
    (slots : RosterSlots) (nt : ℤ) (buf : ℚ) (hnt : 0 ≤ nt) (hbuf : 0 ≤ buf) :
    calculate_replacement_baselines fps slots nt (some buf)
      = .ok (positionOrder.map (fun p => (p, specBaseline p fps slots nt buf))) :=
  calculate_replacement_baselines_eq fps slots nt buf hnt hbuf

/-- Witness for C5: a 12-team league with the default 10% buffer. -/
theorem C5_baseline_formula_witness :
    calculate_replacement_baselines c5fps ⟨1, 0, 0, 0, 0, 0, 0⟩ 12 (some (1/10))
      = .ok (positionOrder.map (fun p =>
          (p, specBaseline p c5fps ⟨1, 0, 0, 0, 0, 0, 0⟩ 12 (1/10)))) :=
  C5_baseline_formula c5fps ⟨1, 0, 0, 0, 0, 0, 0⟩ 12 (1/10)
    (by norm_num) (by norm_num)

/-- Counterexample to C5 as stated for every `num_teams`: at `num_teams = -2`
(1 QB slot, no FLEX, zero buffer) the code truncates `int(-2.0) = -2` and
Python indexing `players[-2]` returns the middle player's 5 points, while the
claimed formula (out-of-range index ⇒ last player) gives 1 point. -/
theorem C5_counterexample :
    baselineFor (calculate_replacement_baselines c5fps
        ⟨1, 0, 0, 0, 0, 0, 0⟩ (-2) (some 0)) .QB
      ≠ specBaseline .QB c5fps ⟨1, 0, 0, 0, 0, 0, 0⟩ (-2) 0 := by
  with_unfolding_all decide

/-- Per-position baseline never raises when `num_teams = 0`: the replacement
rank is `0`, in range for every non-empty group. -/
lemma position_baseline_zero_teams (pos : Pos) (l : List FantasyProPlayer)
    (slots : RosterSlots) (buf : ℚ) :
    ∃ q, _calculate_position_baseline pos l slots 0 buf = .ok q := by
  unfold _calculate_position_baseline
  by_cases hemp : l.isEmpty
  · exact ⟨0, by simp [hemp]⟩
  · have hne : l ≠ [] := by simpa [List.isEmpty_iff] using hemp
    have hlen : 0 < l.length := List.length_pos.mpr hne
    refine ⟨(l.get ⟨0, hlen⟩).ros_points, ?_⟩
    have h0 : ((slots.getPos pos +
        (if pos ∈ flexPositions then slots.FLEX / flexPositions.length else 0) : ℕ) : ℤ)
        * 0 = 0 := mul_zero _
    simp only [hemp, Bool.false_eq_true, if_false, h0]
    have htr : truncQ (((0:ℤ) : ℚ) * (1 + buf)) = 0 := by
      rw [show (((0:ℤ) : ℚ) * (1 + buf)) = 0 by push_cast; ring]
      simp [truncQ]
    rw [htr, if_pos (by exact_mod_cast hlen)]
    unfold pyIndex
    rw [if_pos le_rfl, List.getElem?_eq_getElem (by simpa using hlen)]
    rfl

/-- C7 as amended: `calculate_replacement_baselines` performs no validation of
`num_teams`; at the non-positive value `num_teams = 0` it silently returns a
result for every input instead of failing fast. -/
theorem C7_no_validation_of_team_count (fps : List FantasyProPlayer)
    (slots : RosterSlots) (buf : Option ℚ) :
    ∃ l, calculate_replacement_baselines fps slots 0 buf = .ok l := by
  unfold calculate_replacement_baselines
  set b := buf.getD (1/10)
  suffices h : ∀ L : List Pos, ∃ l, baselinesLoop fps slots 0 b L = .ok l from
    h positionOrder
  intro L
  induction L with
  | nil => exact ⟨[], rfl⟩
  | cons p rest ih =>
    obtain ⟨q, hq⟩ := position_baseline_zero_teams p (rankedGroup p fps) slots b
    obtain ⟨r, hr⟩ := ih
    exact ⟨(p, q) :: r, by simp only [baselinesLoop, hq, hr]; rfl⟩

/-- Counterexample to C7 as stated: `num_teams = 0` is non-positive, yet the
computation returns `.ok` (each non-empty position's baseline is its top
player's points) — no error is surfaced. -/
theorem C7_counterexample :
    (calculate_replacement_baselines c5fps ⟨1, 0, 0, 0, 0, 0, 0⟩ 0
      (some (1/10))).isOk = true := by
  with_unfolding_all decide

/-! ### Baseline monotonicity in the team count (C3) -/

lemma ranked_value_antitone {l : List FantasyProPlayer}
    (hs : l.Pairwise (fun a b => b.ros_points ≤ a.ros_points))
    {i j : ℕ} (hij : i ≤ j) (hjl : j < l.length) :
    l[j].ros_points ≤ l[i].ros_points := by
  rcases Nat.lt_or_ge i j with h | h
  · exact List.pairwise_iff_get.mp hs ⟨i, lt_trans h hjl⟩ ⟨j, hjl⟩ h
  · have : i = j := le_antisymm hij h
    subst this; exact le_refl _

lemma specBaseline_antitone (pos : Pos) (fps : List FantasyProPlayer)
    (slots : RosterSlots) (buf : ℚ) (hbuf : 0 ≤ buf) {t₁ t₂ : ℤ}
    (h1 : 0 ≤ t₁) (h12 : t₁ ≤ t₂) :
    specBaseline pos fps slots t₂ buf ≤ specBaseline pos fps slots t₁ buf := by
  unfold specBaseline
  by_cases hemp : (rankedGroup pos fps).isEmpty
  · simp [hemp]
  · simp only [hemp, Bool.false_eq_true, if_false]
    have hne : rankedGroup pos fps ≠ [] := by
      simpa [List.isEmpty_iff] using hemp
    have hlen : 0 < (rankedGroup pos fps).length := List.length_pos.mpr hne
    have hsorted : (rankedGroup pos fps).Pairwise
        (fun a b => b.ros_points ≤ a.ros_points) :=
      sortDescBy_sorted (·.ros_points) (posGroup pos fps)
    set k : ℕ := (slots.getPos pos +
      (if pos = .RB ∨ pos = .WR ∨ pos = .TE then slots.FLEX / 3 else 0) : ℕ) with hk
    have hone : (0:ℚ) ≤ 1 + buf := by linarith
    have hmono : (((k : ℤ) * t₁ : ℤ) : ℚ) * (1 + buf)
        ≤ (((k : ℤ) * t₂ : ℤ) : ℚ) * (1 + buf) := by
      apply mul_le_mul_of_nonneg_right _ hone
      exact_mod_cast mul_le_mul_of_nonneg_left h12 (Int.ofNat_nonneg k)
    have hfl : ⌊(((k : ℤ) * t₁ : ℤ) : ℚ) * (1 + buf)⌋
        ≤ ⌊(((k : ℤ) * t₂ : ℤ) : ℚ) * (1 + buf)⌋ := Int.floor_le_floor hmono
    have h1pos : (0:ℤ) ≤ ⌊(((k : ℤ) * t₁ : ℤ) : ℚ) * (1 + buf)⌋ := by
      apply Int.le_floor.mpr
      refine le_trans (le_of_eq (by norm_num)) (mul_nonneg ?_ hone)
      exact_mod_cast mul_nonneg (Int.ofNat_nonneg k) h1
    have h2pos : (0:ℤ) ≤ ⌊(((k : ℤ) * t₂ : ℤ) : ℚ) * (1 + buf)⌋ :=
      le_trans h1pos hfl
    have htoNat : (⌊(((k : ℤ) * t₁ : ℤ) : ℚ) * (1 + buf)⌋).toNat
        ≤ (⌊(((k : ℤ) * t₂ : ℤ) : ℚ) * (1 + buf)⌋).toNat := Int.toNat_le_toNat hfl
    have hlast : (((rankedGroup pos fps).getLast?.map (·.ros_points)).getD 0)
        = ((rankedGroup pos fps).get
            ⟨(rankedGroup pos fps).length - 1, by omega⟩).ros_points := by
      rw [List.getLast?_eq_getLast _ hne, List.getLast_eq_getElem]
      rfl
    set n₁ : ℕ := (⌊(((k : ℤ) * t₁ : ℤ) : ℚ) * (1 + buf)⌋).toNat with hn1
    set n₂ : ℕ := (⌊(((k : ℤ) * t₂ : ℤ) : ℚ) * (1 + buf)⌋).toNat with hn2
    by_cases hc2 : n₂ < (rankedGroup pos fps).length
    · have hc1 : n₁ < (rankedGroup pos fps).length := lt_of_le_of_lt htoNat hc2
      rw [dif_pos ⟨h2pos, hc2⟩, dif_pos ⟨h1pos, hc1⟩]
      exact ranked_value_antitone hsorted htoNat hc2
    · rw [dif_neg (fun h => hc2 h.2)]
      by_cases hc1 : n₁ < (rankedGroup pos fps).length
      · rw [dif_pos ⟨h1pos, hc1⟩, hlast]
        exact ranked_value_antitone hsorted (Nat.le_pred_of_lt hc1)
          (Nat.sub_lt hlen Nat.one_pos)
      · rw [dif_neg (fun h => hc1 h.2)]

/-- The value `baselineFor` reads off the spec-formula result list. -/
lemma baselineFor_ok_map (g : Pos → ℚ) (pos : Pos) :
    baselineFor (.ok (positionOrder.map (fun p => (p, g p)))) pos
      = if pos = .DEF then 0 else g pos := by
  cases pos <;> simp [baselineFor, positionOrder, List.find?]

/-- C3 as amended: for non-negative buffers, increasing a non-negative
`num_teams` never **increases** a position's baseline (the spec's parenthetical
"same-or-lower-value player" is the correct direction; "never decreases" is
not). -/
theorem C3_baseline_antitone_in_teams (fps : List FantasyProPlayer)
    (slots : RosterSlots) (buf : ℚ) (t₁ t₂ : ℤ) (pos : Pos)
    (hbuf : 0 ≤ buf) (h1 : 0 ≤ t₁) (h12 : t₁ ≤ t₂) :
    baselineFor (calculate_replacement_baselines fps slots t₂ (some buf)) pos
      ≤ baselineFor (calculate_replacement_baselines fps slots t₁ (some buf)) pos := by
  rw [calculate_replacement_baselines_eq fps slots t₁ buf h1 hbuf,
      calculate_replacement_baselines_eq fps slots t₂ buf (le_trans h1 h12) hbuf,
      baselineFor_ok_map, baselineFor_ok_map]
  by_cases hd : pos = .DEF
  · simp [hd]
  · simp only [hd, if_false]
    exact specBaseline_antitone pos fps slots buf hbuf h1 h12

/-- Witness for C3 at a concrete configuration (8 → 12 teams). -/
theorem C3_baseline_antitone_witness :
    baselineFor (calculate_replacement_baselines c5fps
        ⟨1, 0, 0, 0, 0, 0, 0⟩ 12 (some (1/10))) .QB
      ≤ baselineFor (calculate_replacement_baselines c5fps
        ⟨1, 0, 0, 0, 0, 0, 0⟩ 8 (some (1/10))) .QB :=
  C3_baseline_antitone_in_teams c5fps ⟨1, 0, 0, 0, 0, 0, 0⟩ (1/10) 8 12 .QB
    (by norm_num) (by norm_num) (by norm_num)

/-- Counterexample to C3 as stated: growing the league from 1 to 2 teams
**decreases** the QB baseline from 5 to 1 points (1 QB slot, no FLEX, zero
buffer), so "increasing num_teams never decreases the baseline" is false. -/
theorem C3_counterexample :
    ¬ (baselineFor (calculate_replacement_baselines c5fps
          ⟨1, 0, 0, 0, 0, 0, 0⟩ 1 (some 0)) .QB
        ≤ baselineFor (calculate_replacement_baselines c5fps
          ⟨1, 0, 0, 0, 0, 0, 0⟩ 2 (some 0)) .QB) := by
  with_unfolding_all decide

/-! ### Lineup selection: membership and id discipline -/

lemma guardFold_ids_nodup (l : List Player) (sel : List Player)
    (h : (sel.map (·.id)).Nodup) :
    ((l.foldl (fun sel p =>
        if p.id ∈ sel.map (·.id) then sel else sel ++ [p]) sel).map
      (·.id)).Nodup := by
  induction l generalizing sel with
  | nil => exact h
  | cons p rest ih =>
    simp only [List.foldl_cons]
    by_cases hp : p.id ∈ sel.map (·.id)
    · rw [if_pos hp]; exact ih sel h
    · rw [if_neg hp]
      refine ih _ ?_
      simp only [List.map_append, List.map_cons, List.map_nil,
        List.nodup_append]
      exact ⟨h, List.nodup_singleton _, by
        intro a ha hmem
        simp only [List.mem_cons, List.not_mem_nil, or_false] at hmem
        exact hp (hmem ▸ ha)⟩

lemma guardFold_mem (l : List Player) (sel : List Player) {x : Player}
    (hx : x ∈ l.foldl (fun sel p =>
        if p.id ∈ sel.map (·.id) then sel else sel ++ [p]) sel) :
    x ∈ sel ∨ x ∈ l := by
  induction l generalizing sel with
  | nil => exact Or.inl hx
  | cons p rest ih =>
    simp only [List.foldl_cons] at hx
    by_cases hp : p.id ∈ sel.map (·.id)
    · rw [if_pos hp] at hx
      rcases ih _ hx with h | h
      · exact Or.inl h
      · exact Or.inr (List.mem_cons_of_mem _ h)
    · rw [if_neg hp] at hx
      rcases ih _ hx with h | h
      · rcases List.mem_append.mp h with h | h
        · exact Or.inl h
        · simp only [List.mem_cons, List.not_mem_nil, or_false] at h
          exact Or.inr (h ▸ List.mem_cons_self _ _)
      · exact Or.inr (List.mem_cons_of_mem _ h)

lemma guardFold_sel_mem (l : List Player) (sel : List Player) {x : Player}
    (hx : x ∈ sel) :
    x ∈ l.foldl (fun sel p =>
        if p.id ∈ sel.map (·.id) then sel else sel ++ [p]) sel := by
  induction l generalizing sel with
  | nil => exact hx
  | cons p rest ih =>
    simp only [List.foldl_cons]
    by_cases hp : p.id ∈ sel.map (·.id)
    · rw [if_pos hp]; exact ih _ hx
    · rw [if_neg hp]; exact ih _ (List.mem_append_left _ hx)

lemma mem_sortedPos {vor : String → ℚ} {pos : Pos} {players : List Player}
    {x : Player} (hx : x ∈ sortedPos vor pos players) :
    x ∈ players ∧ x.position = pos := by
  have hmem : x ∈ playersOfPos pos players :=
    ((sortDescBy_perm _ _).mem_iff).mp hx
  simp only [playersOfPos, List.mem_filter, decide_eq_true_eq] at hmem
  exact hmem

lemma sortedPos_ids_nodup {vor : String → ℚ} {pos : Pos}
    {players : List Player} (h : (players.map (·.id)).Nodup) :
    ((sortedPos vor pos players).map (·.id)).Nodup := by
  have h1 : ((playersOfPos pos players).map (·.id)).Nodup :=
    ((List.filter_sublist players).map (·.id)).nodup h
  exact (((sortDescBy_perm (fun p => vor p.id)
    (playersOfPos pos players)).map (·.id)).nodup_iff).mpr h1

lemma foldl_fixedStep_ids_nodup (vor : String → ℚ) (slots : RosterSlots)
    (players : List Player) (posL : List Pos) (sel : List Player)
    (h : (sel.map (·.id)).Nodup) :
    ((posL.foldl (fixedStep vor slots players) sel).map (·.id)).Nodup := by
  induction posL generalizing sel with
  | nil => exact h
  | cons p rest ih =>
    exact ih _ (guardFold_ids_nodup _ _ h)

lemma foldl_fixedStep_mem (vor : String → ℚ) (slots : RosterSlots)
    (players : List Player) (posL : List Pos) (sel : List Player) {x : Player}
    (hx : x ∈ posL.foldl (fixedStep vor slots players) sel) :
    x ∈ sel ∨ x ∈ players := by
  induction posL generalizing sel with
  | nil => exact Or.inl hx
  | cons p rest ih =>
    rcases ih _ hx with h | h
    · rcases guardFold_mem _ _ h with h' | h'
      · exact Or.inl h'
      · exact Or.inr (mem_sortedPos (List.mem_of_mem_take h')).1
    · exact Or.inr h

lemma lineupFixed_ids_nodup (players : List Player) (vor : String → ℚ)
    (slots : RosterSlots) :
    ((lineupFixed players vor slots).map (·.id)).Nodup :=
  foldl_fixedStep_ids_nodup vor slots players positionOrder []
    (by simp)

lemma lineupFixed_mem (players : List Player) (vor : String → ℚ)
    (slots : RosterSlots) {x : Player} (hx : x ∈ lineupFixed players vor slots) :
    x ∈ players := by
  rcases foldl_fixedStep_mem vor slots players positionOrder [] hx with h | h
  · exact absurd h (List.not_mem_nil x)
  · exact h

lemma filtered_sortedPos_ids_nodup (vor : String → ℚ) (pos : Pos)
    (players : List Player) (g : Player → Bool)
    (h : (players.map (·.id)).Nodup) :
    (((sortedPos vor pos players).filter g).map (·.id)).Nodup :=
  List.Nodup.sublist
    (List.Sublist.map _ (List.filter_sublist (sortedPos vor pos players)))
    (sortedPos_ids_nodup h)

lemma filtered_sortedPos_ids_disjoint (vor : String → ℚ) {p₁ p₂ : Pos}
    (hne : p₁ ≠ p₂) (players : List Player) (g₁ g₂ : Player → Bool)
    (h : (players.map (·.id)).Nodup) :
    (((sortedPos vor p₁ players).filter g₁).map (·.id)).Disjoint
      (((sortedPos vor p₂ players).filter g₂).map (·.id)) := by
  have hinj := List.inj_on_of_nodup_map h
  intro a ha hb
  simp only [List.mem_map] at ha hb
  obtain ⟨x, hx, hxa⟩ := ha
  obtain ⟨y, hy, hya⟩ := hb
  have hx' := mem_sortedPos (List.mem_of_mem_filter hx)
  have hy' := mem_sortedPos (List.mem_of_mem_filter hy)
  have hxy : x = y := hinj hx'.1 hy'.1 (hxa.trans hya.symm)
  exact hne (hx'.2 ▸ hy'.2 ▸ congrArg Player.position hxy)

lemma flexCandidates_ids_nodup (players : List Player) (vor : String → ℚ)
    (slots : RosterSlots) (h : (players.map (·.id)).Nodup) :
    ((flexCandidates players vor slots).map (·.id)).Nodup := by
  unfold flexCandidates
  simp only [flexPositions, List.flatMap_cons, List.flatMap_nil,
    List.append_nil]
  rw [List.map_append, List.map_append, List.nodup_append, List.nodup_append]
  refine ⟨filtered_sortedPos_ids_nodup vor .RB players _ h,
    ⟨filtered_sortedPos_ids_nodup vor .WR players _ h,
     filtered_sortedPos_ids_nodup vor .TE players _ h,
     filtered_sortedPos_ids_disjoint vor (by decide) players _ _ h⟩, ?_⟩
  intro a ha hb
  rcases List.mem_append.mp hb with hb | hb
  · exact filtered_sortedPos_ids_disjoint vor
      (show Pos.RB ≠ Pos.WR by decide) players _ _ h ha hb
  · exact filtered_sortedPos_ids_disjoint vor
      (show Pos.RB ≠ Pos.TE by decide) players _ _ h ha hb

/-- C8 as amended: on rosters whose player ids are pairwise distinct (the
Roster invariant — in particular post-trade rosters built from such rosters),
no id is selected twice across the fixed slots and the FLEX slots. -/
theorem C8_no_double_use (players : List Player) (vor : String → ℚ)
    (slots : RosterSlots) (h : (players.map (·.id)).Nodup) :
    ((lineupSelection players vor slots).map (·.id)).Nodup := by
  unfold lineupSelection
  rw [List.map_append, List.nodup_append]
  refine ⟨lineupFixed_ids_nodup players vor slots, ?_, ?_⟩
  · have hsortcand : ((sortDescBy (fun p => vor p.id)
        (flexCandidates players vor slots)).map (·.id)).Nodup :=
      (((sortDescBy_perm (fun p : Player => vor p.id)
        (flexCandidates players vor slots)).map (·.id)).nodup_iff).mpr
        (flexCandidates_ids_nodup players vor slots h)
    exact List.Nodup.sublist
      (List.Sublist.map _ (List.take_sublist slots.FLEX
        (sortDescBy (fun p : Player => vor p.id)
          (flexCandidates players vor slots)))) hsortcand
  · -- fixed ids and FLEX ids are disjoint: candidates exclude used ids
    intro a ha hb
    simp only [List.mem_map] at hb
    obtain ⟨x, hx, hxa⟩ := hb
    have hx' : x ∈ flexCandidates players vor slots :=
      ((sortDescBy_perm (fun p : Player => vor p.id)
        (flexCandidates players vor slots)).mem_iff).mp
        (List.mem_of_mem_take hx)
    unfold flexCandidates at hx'
    simp only [List.mem_flatMap, List.mem_filter] at hx'
    obtain ⟨pos, _, _, hxused⟩ := hx'
    rw [← hxa] at ha
    simp only [decide_not, Bool.not_eq_true', decide_eq_false_iff_not] at hxused
    exact hxused ha

/-- Witness for C8: a duplicate-free two-player roster. -/
theorem C8_no_double_use_witness :
    ((lineupSelection
        [⟨"a", "Amy", .QB, "AA", none⟩, ⟨"b", "Bob", .RB, "AA", none⟩]
        (fun s => if s = "a" then 4 else 2) ⟨1, 1, 0, 0, 1, 0, 0⟩).map
      (·.id)).Nodup :=
  C8_no_double_use _ _ _ (by decide)

/-! ### The selection is a sub-permutation of the roster (C4) -/

lemma filter_or_perm (p q : α → Bool) (l : List α)
    (h : ∀ x ∈ l, ¬(p x = true ∧ q x = true)) :
    List.Perm (l.filter p ++ l.filter q) (l.filter (fun x => p x || q x)) := by
  induction l with
  | nil => simp
  | cons a l ih =>
    have hal : ∀ x ∈ l, ¬(p x = true ∧ q x = true) :=
      fun x hx => h x (List.mem_cons_of_mem _ hx)
    by_cases hp : p a = true
    · have hq : ¬ q a = true := fun hq => h a (List.mem_cons_self a l) ⟨hp, hq⟩
      rw [List.filter_cons_of_pos hp, List.filter_cons_of_neg hq,
        List.filter_cons_of_pos (by simp [hp])]
      exact (ih hal).cons a
    · by_cases hq : q a = true
      · rw [List.filter_cons_of_neg hp, List.filter_cons_of_pos hq,
          List.filter_cons_of_pos (by simp [hq])]
        exact List.perm_middle.trans ((ih hal).cons a)
      · rw [List.filter_cons_of_neg hp, List.filter_cons_of_neg hq,
          List.filter_cons_of_neg (by simp [hp, hq])]
        exact ih hal

lemma subperm_append_both {l₁ l₂ r₁ r₂ : List α} (h1 : l₁.Subperm l₂)
    (h2 : r₁.Subperm r₂) : (l₁ ++ r₁).Subperm (l₂ ++ r₂) := by
  obtain ⟨t₁, hp₁, hs₁⟩ := h1
  obtain ⟨t₂, hp₂, hs₂⟩ := h2
  exact ⟨t₁ ++ t₂, hp₁.append hp₂, hs₁.append hs₂⟩

lemma sumVor_perm (vor : String → ℚ) {l₁ l₂ : List Player}
    (h : List.Perm l₁ l₂) : sumVor vor l₁ = sumVor vor l₂ := by
  unfold sumVor
  exact (h.map (fun p => vor p.id)).sum_eq

lemma sumVor_subperm_le (vor : String → ℚ) {l₁ l₂ : List Player}
    (h : l₁.Subperm l₂) (hpos : ∀ s, 0 ≤ vor s) :
    sumVor vor l₁ ≤ sumVor vor l₂ := by
  obtain ⟨t, hp, hs⟩ := h
  rw [← sumVor_perm vor hp]
  exact List.Sublist.sum_le_sum (hs.map (fun p => vor p.id))
    (by intro a ha; obtain ⟨p, _, rfl⟩ := List.mem_map.mp ha; exact hpos p.id)

/-- Each flex chunk is a sub-permutation of the correspondingly filtered
roster. -/
lemma flex_chunk_subperm (players : List Player) (vor : String → ℚ)
    (used : List String) (pos : Pos) :
    ((sortedPos vor pos players).filter
        (fun p => p.id ∉ used)).Subperm
      (players.filter (fun q =>
        decide (q.id ∉ used) && decide (q.position = pos))) := by
  have h1 : List.Perm
      ((sortedPos vor pos players).filter (fun p => p.id ∉ used))
      ((playersOfPos pos players).filter (fun p => p.id ∉ used)) :=
    List.Perm.filter _ (sortDescBy_perm (fun p : Player => vor p.id)
      (playersOfPos pos players))
  rw [playersOfPos, List.filter_filter] at h1
  exact h1.subperm

/-- The whole selection of `calculate_lineup_vor` is a sub-permutation of the
input list — even when the input carries duplicate ids. -/
lemma lineupSelection_subperm (players : List Player) (vor : String → ℚ)
    (slots : RosterSlots) :
    (lineupSelection players vor slots).Subperm players := by
  set used := (lineupFixed players vor slots).map (·.id) with hused
  have hfix : (lineupFixed players vor slots).Subperm
      (players.filter (fun p => p.id ∈ used)) := by
    apply List.subperm_of_subset
    · exact List.Nodup.of_map _ (lineupFixed_ids_nodup players vor slots)
    · intro x hx
      rw [List.mem_filter]
      refine ⟨lineupFixed_mem players vor slots hx, ?_⟩
      simp only [decide_eq_true_eq]
      exact hused ▸ List.mem_map_of_mem (·.id) hx
  have hdisjpos : ∀ (p₁ p₂ : Pos), p₁ ≠ p₂ → ∀ x ∈ players,
      ¬((decide (x.id ∉ used) && decide (x.position = p₁)) = true ∧
        (decide (x.id ∉ used) && decide (x.position = p₂)) = true) := by
    intro p₁ p₂ hne x _ ⟨h1, h2⟩
    simp only [Bool.and_eq_true, decide_eq_true_eq] at h1 h2
    exact hne (h1.2 ▸ h2.2)
  have hflexsub : (flexCandidates players vor slots).Subperm
      (players.filter (fun p => p.id ∉ used)) := by
    unfold flexCandidates
    simp only [flexPositions, List.flatMap_cons, List.flatMap_nil,
      List.append_nil]
    rw [← hused]
    have hAB := subperm_append_both
      (flex_chunk_subperm players vor used .RB)
      (subperm_append_both (flex_chunk_subperm players vor used .WR)
        (flex_chunk_subperm players vor used .TE))
    refine hAB.trans ?_
    have hBC : List.Perm
        (players.filter (fun q => decide (q.id ∉ used) && decide (q.position = .WR)) ++
          players.filter (fun q => decide (q.id ∉ used) && decide (q.position = .TE)))
        (players.filter (fun q =>
          (decide (q.id ∉ used) && decide (q.position = .WR)) ||
          (decide (q.id ∉ used) && decide (q.position = .TE)))) :=
      filter_or_perm _ _ players (hdisjpos .WR .TE (by decide))
    have hABC : List.Perm
        (players.filter (fun q => decide (q.id ∉ used) && decide (q.position = .RB)) ++
          players.filter (fun q =>
            (decide (q.id ∉ used) && decide (q.position = .WR)) ||
            (decide (q.id ∉ used) && decide (q.position = .TE))))
        (players.filter (fun q =>
          (decide (q.id ∉ used) && decide (q.position = .RB)) ||
          ((decide (q.id ∉ used) && decide (q.position = .WR)) ||
           (decide (q.id ∉ used) && decide (q.position = .TE))))) := by
      apply filter_or_perm
      rintro x hx ⟨h1, h2⟩
      simp only [Bool.and_eq_true, Bool.or_eq_true, decide_eq_true_eq] at h1 h2
      rcases h2 with h2' | h2'
      · exact absurd (h1.2.symm.trans h2'.2) (by decide)
      · exact absurd (h1.2.symm.trans h2'.2) (by decide)
    refine (((List.Perm.refl _).append hBC).trans hABC).subperm.trans ?_
    apply List.Sublist.subperm
    apply List.monotone_filter_right
    intro a ha
    simp only [Bool.or_eq_true, Bool.and_eq_true] at ha
    rcases ha with h | h | h
    · exact h.1
    · exact h.1
    · exact h.1
  have htake : ((sortDescBy (fun p : Player => vor p.id)
      (flexCandidates players vor slots)).take slots.FLEX).Subperm
      (flexCandidates players vor slots) :=
    ((List.take_sublist _ _).subperm).trans
      (sortDescBy_perm (fun p : Player => vor p.id)
        (flexCandidates players vor slots)).subperm
  have hnotP : (fun p : Player => decide (p.id ∉ used))
      = fun p : Player => !(decide (p.id ∈ used)) := by
    funext p; simp [decide_not]
  have hsel := subperm_append_both hfix (htake.trans hflexsub)
  rw [hnotP] at hsel
  exact hsel.trans (List.filter_append_perm _ players).subperm

lemma msum_map_eq_zero_iff (vor : String → ℚ) (m : Multiset Player)
    (hpos : ∀ s, 0 ≤ vor s) :
    (m.map (fun p => vor p.id)).sum = 0 ↔ ∀ p ∈ m, vor p.id = 0 := by
  induction m using Multiset.induction_on with
  | empty => simp
  | cons a s ih =>
    simp only [Multiset.map_cons, Multiset.sum_cons, Multiset.mem_cons]
    rw [add_eq_zero_iff_of_nonneg (hpos a.id) (Multiset.sum_nonneg (by
      intro x hx
      obtain ⟨p, _, rfl⟩ := Multiset.mem_map.mp hx
      exact hpos p.id)), ih]
    constructor
    · rintro ⟨h0, hall⟩ p (rfl | hp)
      · exact h0
      · exact hall p hp
    · intro hall
      exact ⟨hall a (Or.inl rfl), fun p hp => hall p (Or.inr hp)⟩

/-- C4 as amended: the optimal-lineup VOR never exceeds the total VOR of the
list, and equality holds iff every copy of a player **not selected** into the
lineup has zero VOR (in particular, if every player is selected equality
holds; but a zero-VOR player may be left out without breaking equality). -/
theorem C4_lineup_upper_bound (players : List Player) (vor : String → ℚ)
    (slots : RosterSlots) (hpos : ∀ s, 0 ≤ vor s) :
    calculate_lineup_vor players vor slots ≤ sumVor vor players ∧
    (calculate_lineup_vor players vor slots = sumVor vor players ↔
      ∀ p ∈ ((players : Multiset Player) -
        ((lineupSelection players vor slots : List Player) : Multiset Player)),
        vor p.id = 0) := by
  have hsub := lineupSelection_subperm players vor slots
  have hle : ((lineupSelection players vor slots : List Player) : Multiset Player)
      ≤ (players : Multiset Player) := Multiset.coe_le.mpr hsub
  have hsplit : (players : Multiset Player)
      - ((lineupSelection players vor slots : List Player) : Multiset Player)
      + ((lineupSelection players vor slots : List Player) : Multiset Player)
      = (players : Multiset Player) := tsub_add_cancel_of_le hle
  have hsum : sumVor vor players
      = (((players : Multiset Player) -
          ((lineupSelection players vor slots : List Player) : Multiset Player)).map
            (fun p => vor p.id)).sum + calculate_lineup_vor players vor slots := by
    have h1 : sumVor vor players
        = (((players : Multiset Player)).map (fun p => vor p.id)).sum := by
      simp [sumVor]
    have h2 : calculate_lineup_vor players vor slots
        = (((lineupSelection players vor slots : List Player) : Multiset Player).map
            (fun p => vor p.id)).sum := by
      simp [calculate_lineup_vor, sumVor]
    have h3 : ((((players : Multiset Player) -
          ((lineupSelection players vor slots : List Player) : Multiset Player)) +
          ((lineupSelection players vor slots : List Player) : Multiset Player)).map
            (fun p => vor p.id)).sum
        = (((players : Multiset Player)).map (fun p => vor p.id)).sum := by
      rw [hsplit]
    rw [h1, h2, ← h3, Multiset.map_add, Multiset.sum_add]
  have hdiffpos : 0 ≤ (((players : Multiset Player) -
      ((lineupSelection players vor slots : List Player) : Multiset Player)).map
        (fun p => vor p.id)).sum := Multiset.sum_nonneg (by
    intro x hx
    obtain ⟨p, _, rfl⟩ := Multiset.mem_map.mp hx
    exact hpos p.id)
  constructor
  · linarith [hsum, hdiffpos]
  · rw [← msum_map_eq_zero_iff vor _ hpos]
    constructor
    · intro heq
      linarith [hsum, heq]
    · intro h0
      rw [hsum, h0, zero_add]

/-- Witness for C4: a one-QB roster whose player is selected, so the bound is
an equality and the difference multiset is empty. -/
theorem C4_lineup_upper_bound_witness :
    calculate_lineup_vor [⟨"a", "Amy", .QB, "AA", none⟩]
        (fun _ => 7) ⟨1, 0, 0, 0, 0, 0, 0⟩
      ≤ sumVor (fun _ => 7) [⟨"a", "Amy", .QB, "AA", none⟩] ∧
    (calculate_lineup_vor [⟨"a", "Amy", .QB, "AA", none⟩]
        (fun _ => 7) ⟨1, 0, 0, 0, 0, 0, 0⟩
      = sumVor (fun _ => 7) [⟨"a", "Amy", .QB, "AA", none⟩] ↔
      ∀ p ∈ (([⟨"a", "Amy", .QB, "AA", none⟩] : List Player) : Multiset Player) -
        ((lineupSelection [⟨"a", "Amy", .QB, "AA", none⟩]
          (fun _ => 7) ⟨1, 0, 0, 0, 0, 0, 0⟩ : List Player) : Multiset Player),
        (fun _ : String => (7:ℚ)) p.id = 0) :=
  C4_lineup_upper_bound [⟨"a", "Amy", .QB, "AA", none⟩] (fun _ => 7)
    ⟨1, 0, 0, 0, 0, 0, 0⟩ (fun _ => by norm_num)

/-- Counterexample to C4's "equality iff every player fits a slot": with a
single zero-VOR quarterback and no slots at all, both sides are `0` — equality
holds — yet the lineup selection is empty, so the player fits no slot. -/
theorem C4_counterexample :
    calculate_lineup_vor [⟨"z", "Zed", .QB, "AA", none⟩]
        (fun _ => 0) ⟨0, 0, 0, 0, 0, 0, 0⟩
      = sumVor (fun _ => 0) [⟨"z", "Zed", .QB, "AA", none⟩] ∧
    lineupSelection [⟨"z", "Zed", .QB, "AA", none⟩]
        (fun _ => 0) ⟨0, 0, 0, 0, 0, 0, 0⟩ = [] ∧
    ([⟨"z", "Zed", .QB, "AA", none⟩] : List Player) ≠ [] := by
  refine ⟨?_, ?_, ?_⟩
  · with_unfolding_all decide
  · with_unfolding_all decide
  · with_unfolding_all decide

/-- Counterexample to C8 as stated for every player list: with two entries
sharing id "d1" (RB, VOR 3), no RB slots and two FLEX slots, the FLEX loop —
which performs no used-id check — selects both entries, so id "d1" contributes
its VOR twice (total 6). -/
theorem C8_counterexample :
    ¬ ((lineupSelection
        [⟨"d1", "Dup", .RB, "AA", none⟩, ⟨"d1", "Dup", .RB, "AA", none⟩]
        (fun s => if s = "d1" then 3 else 0) ⟨0, 0, 0, 0, 2, 0, 0⟩).map
      (·.id)).Nodup ∧
    calculate_lineup_vor
        [⟨"d1", "Dup", .RB, "AA", none⟩, ⟨"d1", "Dup", .RB, "AA", none⟩]
        (fun s => if s = "d1" then 3 else 0) ⟨0, 0, 0, 0, 2, 0, 0⟩ = 6 := by
  constructor
  · with_unfolding_all decide
  · with_unfolding_all decide

/-! ### C2: closed form of the selection on duplicate-free rosters -/

lemma guardFold_eq_append (l sel : List Player)
    (h : ((sel ++ l).map (·.id)).Nodup) :
    l.foldl (fun sel p =>
        if p.id ∈ sel.map (·.id) then sel else sel ++ [p]) sel
      = sel ++ l := by
  induction l generalizing sel with
  | nil => simp
  | cons p rest ih =>
    have hp : p.id ∉ sel.map (·.id) := by
      intro hmem
      rw [List.map_append, List.nodup_append] at h
      exact h.2.2 hmem (by simp)
    simp only [List.foldl_cons, if_neg hp]
    have harr : sel ++ p :: rest = (sel ++ [p]) ++ rest := by simp
    rw [harr] at h
    rw [ih (sel ++ [p]) h]
    simp

lemma take_sortedPos_ids_nodup {vor : String → ℚ} {pos : Pos}
    {players : List Player} (h : (players.map (·.id)).Nodup) (k : ℕ) :
    (((sortedPos vor pos players).take k).map (·.id)).Nodup :=
  List.Nodup.sublist (List.Sublist.map _ (List.take_sublist k _))
    (sortedPos_ids_nodup h)

lemma foldl_fixedStep_eq (players : List Player) (vor : String → ℚ)
    (slots : RosterSlots) (posL : List Pos)
    (hnodup : (players.map (·.id)).Nodup) (hposL : posL.Nodup)
    (sel : List Player) (hsel_pos : ∀ x ∈ sel, x.position ∉ posL)
    (hsel_sub : ∀ x ∈ sel, x ∈ players)
    (hsel_nodup : (sel.map (·.id)).Nodup) :
    posL.foldl (fixedStep vor slots players) sel
      = sel ++ posL.flatMap (fun pos =>
          (sortedPos vor pos players).take (slots.getPos pos)) := by
  have hinj := List.inj_on_of_nodup_map hnodup
  induction posL generalizing sel with
  | nil => simp
  | cons p rest ihp =>
    have hpnodup : (p :: rest).Nodup := hposL
    rw [List.nodup_cons] at hpnodup
    have htake_mem : ∀ x ∈ (sortedPos vor p players).take (slots.getPos p),
        x ∈ players ∧ x.position = p :=
      fun x hx => mem_sortedPos (List.mem_of_mem_take hx)
    have hcomb : ((sel ++ (sortedPos vor p players).take (slots.getPos p)).map
        (·.id)).Nodup := by
      rw [List.map_append, List.nodup_append]
      refine ⟨hsel_nodup, take_sortedPos_ids_nodup hnodup _, ?_⟩
      intro a ha hb
      simp only [List.mem_map] at ha hb
      obtain ⟨x, hx, hxa⟩ := ha
      obtain ⟨y, hy, hya⟩ := hb
      have hxy : x = y := hinj (hsel_sub x hx) (htake_mem y hy).1
        (hxa.trans hya.symm)
      exact hsel_pos x hx (by
        rw [hxy, (htake_mem y hy).2]; exact List.mem_cons_self p rest)
    have hstep : fixedStep vor slots players sel p
        = sel ++ (sortedPos vor p players).take (slots.getPos p) := by
      unfold fixedStep
      exact guardFold_eq_append _ sel hcomb
    simp only [List.foldl_cons, hstep]
    rw [ihp hpnodup.2 _ ?_ ?_ hcomb]
    · simp [List.flatMap_cons]
    · intro x hx
      rcases List.mem_append.mp hx with hx' | hx'
      · intro hc
        exact hsel_pos x hx' (List.mem_cons_of_mem _ hc)
      · rw [(htake_mem x hx').2]
        exact hpnodup.1
    · intro x hx
      rcases List.mem_append.mp hx with hx' | hx'
      · exact hsel_sub x hx'
      · exact (htake_mem x hx').1

/-- On duplicate-free rosters the guarded fixed fill is exactly the
per-position prefixes. -/
lemma lineupFixed_eq (players : List Player) (vor : String → ℚ)
    (slots : RosterSlots) (hnodup : (players.map (·.id)).Nodup) :
    lineupFixed players vor slots
      = positionOrder.flatMap (fun pos =>
          (sortedPos vor pos players).take (slots.getPos pos)) := by
  unfold lineupFixed
  rw [foldl_fixedStep_eq players vor slots positionOrder hnodup (by decide) []
    (by simp) (by simp) (by simp)]
  simp

/-- On duplicate-free rosters, filtering a flex position's sorted list by the
used ids of the fixed fill leaves exactly the suffix beyond its slot count. -/
lemma flex_chunk_eq_drop (players : List Player) (vor : String → ℚ)
    (slots : RosterSlots) (hnodup : (players.map (·.id)).Nodup) (pos : Pos)
    (hpos : pos ∈ positionOrder) :
    (sortedPos vor pos players).filter (fun p =>
        p.id ∉ (positionOrder.flatMap (fun q =>
          (sortedPos vor q players).take (slots.getPos q))).map (·.id))
      = (sortedPos vor pos players).drop (slots.getPos pos) := by
  have hinj := List.inj_on_of_nodup_map hnodup
  set U := (positionOrder.flatMap (fun q =>
    (sortedPos vor q players).take (slots.getPos q))).map (·.id) with hU
  have hids : ((sortedPos vor pos players).map (·.id)).Nodup :=
    sortedPos_ids_nodup hnodup
  have hsplit := List.take_append_drop (slots.getPos pos)
    (sortedPos vor pos players)
  have hdisj : ∀ x ∈ (sortedPos vor pos players).take (slots.getPos pos),
      ∀ y ∈ (sortedPos vor pos players).drop (slots.getPos pos),
      x.id ≠ y.id := by
    intro x hx y hy heq
    rw [← hsplit, List.map_append, List.nodup_append] at hids
    exact hids.2.2 (List.mem_map_of_mem _ hx) (heq ▸ List.mem_map_of_mem _ hy)
  have h1 : (((sortedPos vor pos players).take (slots.getPos pos)).filter
      (fun p => p.id ∉ U)) = [] := by
    rw [List.filter_eq_nil_iff]
    intro x hx
    simp only [decide_not, Bool.not_eq_true', Bool.not_eq_false,
      decide_eq_true_eq, Decidable.not_not]
    rw [hU]
    exact List.mem_map_of_mem (fun p : Player => p.id)
      (List.mem_flatMap.mpr ⟨pos, hpos, hx⟩)
  have h2 : (((sortedPos vor pos players).drop (slots.getPos pos)).filter
      (fun p => p.id ∉ U)) =
      (sortedPos vor pos players).drop (slots.getPos pos) := by
    rw [List.filter_eq_self]
    intro x hx
    simp only [decide_not, Bool.not_eq_true', decide_eq_false_iff_not]
    intro hxU
    rw [hU] at hxU
    obtain ⟨y, hy, hyx⟩ := List.mem_map.mp hxU
    obtain ⟨q, _, hyq⟩ := List.mem_flatMap.mp hy
    have hyplayers : y ∈ players := (mem_sortedPos (List.mem_of_mem_take hyq)).1
    have hxplayers : x ∈ players := (mem_sortedPos (List.mem_of_mem_drop hx)).1
    have hxy : y = x := hinj hyplayers hxplayers hyx
    have hqpos : q = pos :=
      ((mem_sortedPos (List.mem_of_mem_take hyq)).2).symm.trans
        (congrArg Player.position hxy ▸
          (mem_sortedPos (List.mem_of_mem_drop hx)).2)
    exact hdisj y (hqpos ▸ hyq) x hx (congrArg Player.id hxy)
  calc (sortedPos vor pos players).filter (fun p => p.id ∉ U)
      = (((sortedPos vor pos players).take (slots.getPos pos)) ++
          ((sortedPos vor pos players).drop (slots.getPos pos))).filter
            (fun p => p.id ∉ U) := by rw [hsplit]
    _ = (sortedPos vor pos players).drop (slots.getPos pos) := by
        rw [List.filter_append, h1, h2, List.nil_append]

/-- On duplicate-free rosters the FLEX candidate pool is exactly the unused
suffix of each flex position. -/
lemma flexCandidates_eq (players : List Player) (vor : String → ℚ)
    (slots : RosterSlots) (hnodup : (players.map (·.id)).Nodup) :
    flexCandidates players vor slots
      = flexPositions.flatMap (fun pos =>
          (sortedPos vor pos players).drop (slots.getPos pos)) := by
  unfold flexCandidates
  rw [lineupFixed_eq players vor slots hnodup]
  simp only [flexPositions, List.flatMap_cons, List.flatMap_nil,
    List.append_nil]
  rw [flex_chunk_eq_drop players vor slots hnodup .RB (by decide),
    flex_chunk_eq_drop players vor slots hnodup .WR (by decide),
    flex_chunk_eq_drop players vor slots hnodup .TE (by decide)]

/-! ### C2: sums of sub-permutations against sorted prefixes -/

lemma takeSum_mono (l : List ℚ) (hpos : ∀ x ∈ l, 0 ≤ x) {m k : ℕ}
    (hmk : m ≤ k) : (l.take m).sum ≤ (l.take k).sum := by
  have hsplit : l.take k = l.take m ++ (l.drop m).take (k - m) := by
    rw [← List.take_add]
    congr 1
    omega
  rw [hsplit, List.sum_append]
  have h0 : 0 ≤ ((l.drop m).take (k - m)).sum := by
    apply List.sum_nonneg
    intro x hx
    exact hpos x (List.mem_of_mem_drop (List.mem_of_mem_take hx))
  linarith

lemma takeSum_cons_le (a : ℚ) (l : List ℚ) (hsort : ∀ b ∈ l, b ≤ a)
    (ha : 0 ≤ a) (m : ℕ) : (l.take m).sum ≤ ((a :: l).take m).sum := by
  cases m with
  | zero => simp
  | succ k =>
    rw [List.take_succ,
      show (a :: l).take (k + 1) = a :: l.take k from rfl,
      List.sum_append, List.sum_cons]
    cases hk : l[k]? with
    | none => simp only [Option.toList_none, List.sum_nil, add_zero]; linarith
    | some x =>
      have hx : x ∈ l := List.getElem?_mem hk
      simp only [Option.toList_some, List.sum_cons, List.sum_nil, add_zero]
      have := hsort x hx
      linarith

/-- Any sub-permutation of a descending-sorted non-negative list sums to at
most the prefix of its own length. -/
lemma sum_subperm_le_takeSum :
    ∀ (l : List ℚ), l.Pairwise (fun a b => b ≤ a) → (∀ x ∈ l, 0 ≤ x) →
    ∀ (t : List ℚ), t.Subperm l → t.sum ≤ (l.take t.length).sum := by
  intro l
  induction l with
  | nil =>
    intro _ _ t ht
    rw [List.subperm_nil.mp ht]
    simp
  | cons a l ih =>
    intro hsort hpos t ht
    have hsort' : l.Pairwise (fun a b => b ≤ a) := hsort.of_cons
    have hle_a : ∀ b ∈ l, b ≤ a := (List.pairwise_cons.mp hsort).1
    have hpos' : ∀ x ∈ l, 0 ≤ x := fun x hx =>
      hpos x (List.mem_cons_of_mem _ hx)
    by_cases hat : a ∈ t
    · have herase : (t.erase a).Subperm l := by
        have h := ht.erase a
        rwa [List.erase_cons_head] at h
      have hsum : t.sum = a + (t.erase a).sum := by
        rw [(List.perm_cons_erase hat).sum_eq, List.sum_cons]
      have hlen : t.length = (t.erase a).length + 1 := by
        rw [List.length_erase, if_pos hat]
        have : 0 < t.length := List.length_pos.mpr (List.ne_nil_of_mem hat)
        omega
      rw [hsum, hlen,
        show (a :: l).take ((t.erase a).length + 1)
          = a :: l.take (t.erase a).length from rfl, List.sum_cons]
      have := ih hsort' hpos' (t.erase a) herase
      linarith
    · have htl : t.Subperm l := by
        rw [← Multiset.coe_le] at ht ⊢
        rw [Multiset.le_iff_count]
        intro b
        have hcount := Multiset.le_iff_count.mp ht b
        by_cases hb : b = a
        · subst hb
          have h0 : Multiset.count b (↑t : Multiset ℚ) = 0 := by
            rw [Multiset.count_eq_zero]
            simpa using hat
          simp [h0]
        · rwa [show ((a :: l : List ℚ) : Multiset ℚ) = a ::ₘ (↑l : Multiset ℚ)
              from rfl, Multiset.count_cons_of_ne hb] at hcount
      have h1 := ih hsort' hpos' t htl
      have h2 := takeSum_cons_le a l hle_a (hpos a (List.mem_cons_self _ _))
        t.length
      linarith

/-! ### C2: per-position decomposition -/

lemma sumVor_position_split (vor : String → ℚ) (l : List Player) :
    sumVor vor l = (allPositions.map (fun pos =>
      sumVor vor (l.filter (fun p => p.position = pos)))).sum := by
  induction l with
  | nil => simp [sumVor, allPositions]
  | cons x l ih =>
    have hx : sumVor vor (x :: l) = vor x.id + sumVor vor l := by
      simp [sumVor]
    have hcons : ∀ (m : List Player), sumVor vor (x :: m)
        = vor x.id + sumVor vor m := by
      intro m; simp [sumVor]
    rw [hx, ih]
    cases hpos : x.position <;>
      simp only [allPositions, List.map_cons, List.map_nil, List.sum_cons,
        List.sum_nil, List.filter_cons, hpos, decide_eq_true_eq] <;>
      simp [hcons] <;>
      ring

lemma flex_filter_length_sum (X : List Player)
    (hX : ∀ x ∈ X, x.position ∈ flexPositions) :
    (X.filter (fun p => p.position = Pos.RB)).length +
    (X.filter (fun p => p.position = Pos.WR)).length +
    (X.filter (fun p => p.position = Pos.TE)).length = X.length := by
  induction X with
  | nil => simp
  | cons x X ih =>
    have hx := hX x (List.mem_cons_self _ _)
    have hX' : ∀ y ∈ X, y.position ∈ flexPositions := fun y hy =>
      hX y (List.mem_cons_of_mem _ hy)
    simp only [flexPositions, List.mem_cons, List.not_mem_nil, or_false] at hx
    rcases hx with h | h | h <;>
      simp only [List.filter_cons, h, decide_eq_true_eq] <;>
      simp <;>
      (have hihx := ih hX') <;> omega

lemma feasible_count_nonflex {slots : RosterSlots} {S : List Player}
    (hf : FeasibleLineup slots S) (pos : Pos) (hnf : pos ∉ flexPositions) :
    (S.filter (fun p => p.position = pos)).length ≤ slots.getPos pos := by
  obtain ⟨F, X, hperm, hcount, hX, hlen⟩ := hf
  have h1 : (S.filter (fun p => p.position = pos)).length
      = ((F ++ X).filter (fun p => p.position = pos)).length :=
    (hperm.filter _).length_eq
  have hXnil : X.filter (fun p => p.position = pos) = [] := by
    rw [List.filter_eq_nil_iff]
    intro x hx hcontra
    simp only [decide_eq_true_eq] at hcontra
    exact hnf (hcontra ▸ hX x hx)
  rw [h1, List.filter_append, hXnil, List.append_nil]
  exact hcount pos

lemma feasible_flex_overflow {slots : RosterSlots} {S : List Player}
    (hf : FeasibleLineup slots S) :
    ((S.filter (fun p => p.position = Pos.RB)).length - slots.getPos .RB) +
    ((S.filter (fun p => p.position = Pos.WR)).length - slots.getPos .WR) +
    ((S.filter (fun p => p.position = Pos.TE)).length - slots.getPos .TE)
      ≤ slots.FLEX := by
  obtain ⟨F, X, hperm, hcount, hX, hlen⟩ := hf
  have hc : ∀ pos : Pos, (S.filter (fun p => p.position = pos)).length
      = (F.filter (fun p => p.position = pos)).length +
        (X.filter (fun p => p.position = pos)).length := by
    intro pos
    rw [(hperm.filter _).length_eq, List.filter_append, List.length_append]
  have hXsum := flex_filter_length_sum X hX
  have h1 := hc .RB
  have h2 := hc .WR
  have h3 := hc .TE
  have g1 := hcount .RB
  have g2 := hcount .WR
  have g3 := hcount .TE
  unfold countPos at g1 g2 g3
  omega

lemma filter_map_subperm_sorted (vor : String → ℚ) (pos : Pos)
    {S players : List Player} (hS : S.Sublist players) :
    ((S.filter (fun p => p.position = pos)).map
        (fun p => vor p.id)).Subperm
      ((sortedPos vor pos players).map (fun p => vor p.id)) := by
  have h1 : (S.filter (fun p => p.position = pos)).Sublist
      (playersOfPos pos players) := hS.filter _
  have h2 : (playersOfPos pos players).Perm (sortedPos vor pos players) :=
    (sortDescBy_perm (fun p : Player => vor p.id)
      (playersOfPos pos players)).symm
  exact ((h1.map (fun p => vor p.id)).subperm).trans
    ((h2.map (fun p => vor p.id)).subperm)

lemma sortedPos_map_pairwise (vor : String → ℚ) (pos : Pos)
    (players : List Player) :
    ((sortedPos vor pos players).map (fun p => vor p.id)).Pairwise
      (fun a b => b ≤ a) :=
  List.pairwise_map.mpr (sortDescBy_sorted (fun p : Player => vor p.id)
    (playersOfPos pos players))

lemma sortDescBy_map_pairwise (vor : String → ℚ) (l : List Player) :
    ((sortDescBy (fun p : Player => vor p.id) l).map
      (fun p => vor p.id)).Pairwise (fun a b => b ≤ a) :=
  List.pairwise_map.mpr (sortDescBy_sorted (fun p : Player => vor p.id) l)

/-- The greedy total on a duplicate-free roster: per-position top-slot prefix
sums plus the top-FLEX sum of the merged leftovers. -/
lemma calculate_lineup_vor_eq_clean (players : List Player)
    (vor : String → ℚ) (slots : RosterSlots)
    (hnodup : (players.map (·.id)).Nodup) :
    calculate_lineup_vor players vor slots
      = (positionOrder.map (fun pos =>
          (((sortedPos vor pos players).map (fun p => vor p.id)).take
            (slots.getPos pos)).sum)).sum
        + (((sortDescBy (fun p : Player => vor p.id)
            (flexPositions.flatMap (fun pos =>
              (sortedPos vor pos players).drop (slots.getPos pos)))).map
                (fun p => vor p.id)).take slots.FLEX).sum := by
  unfold calculate_lineup_vor lineupSelection
  rw [lineupFixed_eq players vor slots hnodup,
    flexCandidates_eq players vor slots hnodup]
  unfold sumVor
  rw [List.map_append, List.sum_append]
  congr 1
  · simp [positionOrder, List.flatMap_cons, List.flatMap_nil,
      List.map_append, List.sum_append, List.map_take]
  · rw [List.map_take]

/-- Upper-bound direction of C2: every feasible lineup drawn from a
duplicate-free roster sums to at most the greedy total. -/
lemma feasible_le_greedy (players : List Player) (vor : String → ℚ)
    (slots : RosterSlots) (hnodup : (players.map (·.id)).Nodup)
    (hpos : ∀ s, 0 ≤ vor s) {S : List Player} (hS : S.Sublist players)
    (hf : FeasibleLineup slots S) :
    sumVor vor S ≤ calculate_lineup_vor players vor slots := by
  have hLpos : ∀ pos : Pos,
      ∀ x ∈ (sortedPos vor pos players).map (fun p => vor p.id), 0 ≤ x := by
    intro pos x hx
    obtain ⟨p, _, rfl⟩ := List.mem_map.mp hx
    exact hpos p.id
  have hperpos : ∀ pos : Pos,
      sumVor vor (S.filter (fun p => p.position = pos))
        ≤ (((sortedPos vor pos players).map (fun p => vor p.id)).take
            ((S.filter (fun p => p.position = pos)).length)).sum := by
    intro pos
    have h := sum_subperm_le_takeSum _ (sortedPos_map_pairwise vor pos players)
      (hLpos pos) _ (filter_map_subperm_sorted vor pos hS)
    simpa [sumVor, List.length_map] using h
  -- bounds for the four non-flex positions
  have hnonflex : ∀ pos : Pos, pos ∉ flexPositions →
      sumVor vor (S.filter (fun p => p.position = pos))
        ≤ (((sortedPos vor pos players).map (fun p => vor p.id)).take
            (slots.getPos pos)).sum := by
    intro pos hnf
    exact (hperpos pos).trans (takeSum_mono _ (hLpos pos)
      (feasible_count_nonflex hf pos hnf))
  -- bounds for the three flex positions, with explicit leftover terms
  have hflex : ∀ pos : Pos,
      sumVor vor (S.filter (fun p => p.position = pos))
        ≤ (((sortedPos vor pos players).map (fun p => vor p.id)).take
            (slots.getPos pos)).sum
          + ((((sortedPos vor pos players).map (fun p => vor p.id)).drop
              (slots.getPos pos)).take
                ((S.filter (fun p => p.position = pos)).length
                  - slots.getPos pos)).sum := by
    intro pos
    refine (hperpos pos).trans ?_
    have hc : (S.filter (fun p => p.position = pos)).length
        ≤ slots.getPos pos +
          ((S.filter (fun p => p.position = pos)).length - slots.getPos pos) :=
      by omega
    refine (takeSum_mono _ (hLpos pos) hc).trans (le_of_eq ?_)
    rw [List.take_add, List.sum_append]
  -- the three leftover terms are bounded by the top-FLEX of the merged pool
  set Lpool := (sortDescBy (fun p : Player => vor p.id)
    (flexPositions.flatMap (fun pos =>
      (sortedPos vor pos players).drop (slots.getPos pos)))).map
        (fun p => vor p.id) with hLpool
  set fRB := (S.filter (fun p => p.position = Pos.RB)).length
    - slots.getPos .RB with hfRB
  set fWR := (S.filter (fun p => p.position = Pos.WR)).length
    - slots.getPos .WR with hfWR
  set fTE := (S.filter (fun p => p.position = Pos.TE)).length
    - slots.getPos .TE with hfTE
  set dropRB := ((sortedPos vor .RB players).map (fun p => vor p.id)).drop
    (slots.getPos .RB) with hdropRB
  set dropWR := ((sortedPos vor .WR players).map (fun p => vor p.id)).drop
    (slots.getPos .WR) with hdropWR
  set dropTE := ((sortedPos vor .TE players).map (fun p => vor p.id)).drop
    (slots.getPos .TE) with hdropTE
  have hpool : (dropRB.take fRB ++ (dropWR.take fWR ++ dropTE.take fTE)).sum
      ≤ (Lpool.take slots.FLEX).sum := by
    have hTsub : (dropRB.take fRB ++
        (dropWR.take fWR ++ dropTE.take fTE)).Subperm Lpool := by
      have hsublist : (dropRB.take fRB ++
          (dropWR.take fWR ++ dropTE.take fTE)).Sublist
          (dropRB ++ (dropWR ++ dropTE)) :=
        List.Sublist.append (List.take_sublist _ _)
          (List.Sublist.append (List.take_sublist _ _) (List.take_sublist _ _))
      have hpoolmap : dropRB ++ (dropWR ++ dropTE)
          = (flexPositions.flatMap (fun pos =>
              (sortedPos vor pos players).drop (slots.getPos pos))).map
                (fun p => vor p.id) := by
        simp [flexPositions, List.flatMap_cons, List.flatMap_nil,
          List.map_append, List.map_drop, hdropRB, hdropWR, hdropTE]
      have hpoolperm : ((flexPositions.flatMap (fun pos =>
          (sortedPos vor pos players).drop (slots.getPos pos))).map
            (fun p => vor p.id)).Perm Lpool := by
        rw [hLpool]
        exact ((sortDescBy_perm (fun p : Player => vor p.id) _).map
          (fun p => vor p.id)).symm
      exact (hsublist.subperm).trans ((hpoolmap ▸ hpoolperm).subperm)
    have hLpoolsort : Lpool.Pairwise (fun a b => b ≤ a) := by
      rw [hLpool]
      exact sortDescBy_map_pairwise vor _
    have hLpoolpos : ∀ x ∈ Lpool, 0 ≤ x := by
      intro x hx
      rw [hLpool] at hx
      obtain ⟨p, _, rfl⟩ := List.mem_map.mp hx
      exact hpos p.id
    have h1 := sum_subperm_le_takeSum Lpool hLpoolsort hLpoolpos _ hTsub
    have hlen : (dropRB.take fRB ++
        (dropWR.take fWR ++ dropTE.take fTE)).length ≤ slots.FLEX := by
      have hflexlen := feasible_flex_overflow hf
      simp only [List.length_append, List.length_take]
      omega
    exact h1.trans (takeSum_mono Lpool hLpoolpos hlen)
  -- assemble
  have hsplit := sumVor_position_split vor S
  have hgreedy := calculate_lineup_vor_eq_clean players vor slots hnodup
  simp only [allPositions, List.map_cons, List.map_nil, List.sum_cons,
    List.sum_nil] at hsplit
  simp only [positionOrder, List.map_cons, List.map_nil, List.sum_cons,
    List.sum_nil] at hgreedy
  rw [← hLpool] at hgreedy
  have hQB := hnonflex .QB (by decide)
  have hK := hnonflex .K (by decide)
  have hDST := hnonflex .DST (by decide)
  have hDEF := hnonflex .DEF (by decide)
  have hDEF0 : (((sortedPos vor Pos.DEF players).map
      (fun p => vor p.id)).take (slots.getPos .DEF)).sum = 0 := by
    show (List.take 0 _).sum = 0
    simp
  have hRB := hflex .RB
  have hWR := hflex .WR
  have hTE := hflex .TE
  rw [List.sum_append, List.sum_append] at hpool
  rw [← hfRB, ← hdropRB] at hRB
  rw [← hfWR, ← hdropWR] at hWR
  rw [← hfTE, ← hdropTE] at hTE
  rw [hsplit, hgreedy]
  rw [hDEF0] at hDEF
  linarith [hQB, hK, hDST, hDEF, hRB, hWR, hTE, hpool]

/-! ### C2: the greedy selection is itself feasible -/

lemma countPos_flatMap_take_zero (players : List Player) (vor : String → ℚ)
    (slots : RosterSlots) (posL : List Pos) (pos : Pos) (h : pos ∉ posL) :
    countPos pos (posL.flatMap (fun q =>
      (sortedPos vor q players).take (slots.getPos q))) = 0 := by
  induction posL with
  | nil => rfl
  | cons q rest ih =>
    rw [List.flatMap_cons]
    unfold countPos at *
    rw [List.filter_append, List.length_append]
    have h1 : ((sortedPos vor q players).take (slots.getPos q)).filter
        (fun p => p.position = pos) = [] := by
      rw [List.filter_eq_nil_iff]
      intro x hx hieq
      simp only [decide_eq_true_eq] at hieq
      have hq := (mem_sortedPos (List.mem_of_mem_take hx)).2
      have hpq : pos = q := hieq.symm.trans hq
      exact h (by rw [hpq]; exact List.mem_cons_self q rest)
    rw [h1]
    have h2 := ih (fun hc => h (List.mem_cons_of_mem _ hc))
    simpa using h2

lemma countPos_lineupFixed_le (players : List Player) (vor : String → ℚ)
    (slots : RosterSlots) (hnodup : (players.map (·.id)).Nodup) (pos : Pos) :
    countPos pos (lineupFixed players vor slots) ≤ slots.getPos pos := by
  rw [lineupFixed_eq players vor slots hnodup]
  suffices h : ∀ posL : List Pos, posL.Nodup →
      countPos pos (posL.flatMap (fun q =>
        (sortedPos vor q players).take (slots.getPos q))) ≤ slots.getPos pos by
    exact h positionOrder (by decide)
  intro posL hn
  induction posL with
  | nil => unfold countPos; simp
  | cons q rest ih =>
    rw [List.nodup_cons] at hn
    rw [List.flatMap_cons]
    unfold countPos
    rw [List.filter_append, List.length_append]
    by_cases hq : q = pos
    · subst hq
      have h2 := countPos_flatMap_take_zero players vor slots rest q hn.1
      unfold countPos at h2
      have h1 : (((sortedPos vor q players).take (slots.getPos q)).filter
          (fun p => p.position = q)).length ≤ slots.getPos q := by
        refine (List.length_filter_le _ _).trans ?_
        rw [List.length_take]
        omega
      omega
    · have h1 : ((sortedPos vor q players).take (slots.getPos q)).filter
          (fun p => p.position = pos) = [] := by
        rw [List.filter_eq_nil_iff]
        intro x hx hieq
        simp only [decide_eq_true_eq] at hieq
        exact hq ((mem_sortedPos (List.mem_of_mem_take hx)).2.symm.trans hieq)
      rw [h1]
      have h2 := ih hn.2
      unfold countPos at h2
      simpa using h2

lemma greedy_feasible (players : List Player) (vor : String → ℚ)
    (slots : RosterSlots) (hnodup : (players.map (·.id)).Nodup) :
    ∃ S : List Player, S.Sublist players ∧ FeasibleLineup slots S ∧
      sumVor vor S = calculate_lineup_vor players vor slots := by
  obtain ⟨S, hSperm, hSsub⟩ := lineupSelection_subperm players vor slots
  refine ⟨S, hSsub, ?_, sumVor_perm vor hSperm⟩
  refine ⟨lineupFixed players vor slots,
    (sortDescBy (fun p : Player => vor p.id)
      (flexCandidates players vor slots)).take slots.FLEX, hSperm, ?_, ?_, ?_⟩
  · exact countPos_lineupFixed_le players vor slots hnodup
  · intro x hx
    have hx' : x ∈ flexCandidates players vor slots :=
      ((sortDescBy_perm (fun p : Player => vor p.id)
        (flexCandidates players vor slots)).mem_iff).mp
        (List.mem_of_mem_take hx)
    unfold flexCandidates at hx'
    obtain ⟨pos, hposmem, hxmem⟩ := List.mem_flatMap.mp hx'
    exact (mem_sortedPos (List.mem_of_mem_filter hxmem)).2 ▸ hposmem
  · rw [List.length_take]
    exact min_le_left _ _

/-- C2 as amended: on rosters with pairwise-distinct player ids and a
non-negative VOR map, `calculate_lineup_vor` returns exactly the maximum
achievable total VOR over all feasible starting lineups (fixed slots per
position plus FLEX from RB/WR/TE, no player used twice). -/
theorem C2_greedy_optimal (players : List Player) (vor : String → ℚ)
    (slots : RosterSlots) (hnodup : (players.map (·.id)).Nodup)
    (hpos : ∀ s, 0 ≤ vor s) :
    (∀ S : List Player, S.Sublist players → FeasibleLineup slots S →
      sumVor vor S ≤ calculate_lineup_vor players vor slots) ∧
    (∃ S : List Player, S.Sublist players ∧ FeasibleLineup slots S ∧
      sumVor vor S = calculate_lineup_vor players vor slots) :=
  ⟨fun _ hS hf => feasible_le_greedy players vor slots hnodup hpos hS hf,
   greedy_feasible players vor slots hnodup⟩

/-- Witness for C2: a duplicate-free QB/RB pair with one slot each. -/
theorem C2_greedy_optimal_witness :
    (∀ S : List Player, S.Sublist
        [⟨"a", "Amy", .QB, "AA", none⟩, ⟨"b", "Bob", .RB, "BB", none⟩] →
      FeasibleLineup ⟨1, 1, 0, 0, 0, 0, 0⟩ S →
      sumVor (fun s => if s = "a" then 4 else 2) S
        ≤ calculate_lineup_vor
            [⟨"a", "Amy", .QB, "AA", none⟩, ⟨"b", "Bob", .RB, "BB", none⟩]
            (fun s => if s = "a" then 4 else 2) ⟨1, 1, 0, 0, 0, 0, 0⟩) ∧
    (∃ S : List Player, S.Sublist
        [⟨"a", "Amy", .QB, "AA", none⟩, ⟨"b", "Bob", .RB, "BB", none⟩] ∧
      FeasibleLineup ⟨1, 1, 0, 0, 0, 0, 0⟩ S ∧
      sumVor (fun s => if s = "a" then 4 else 2) S
        = calculate_lineup_vor
            [⟨"a", "Amy", .QB, "AA", none⟩, ⟨"b", "Bob", .RB, "BB", none⟩]
            (fun s => if s = "a" then 4 else 2) ⟨1, 1, 0, 0, 0, 0, 0⟩) :=
  C2_greedy_optimal _ _ _ (by decide)
    (by intro s; by_cases h : s = "a" <;> simp [h])

/-- Counterexample to C2 as stated for every player list: with two entries
sharing id "1" (RB, VOR 10) and a third of id "2" (RB, VOR 5), two RB slots
and no FLEX, the greedy skips the duplicated id and returns 10, while the
feasible lineup of the two distinct-id players sums to 15. -/
theorem C2_counterexample :
    calculate_lineup_vor
        [⟨"1", "Dup", .RB, "AA", none⟩, ⟨"1", "Dup", .RB, "AA", none⟩,
         ⟨"2", "Solo", .RB, "AA", none⟩]
        (fun s => if s = "1" then 10 else 5) ⟨0, 2, 0, 0, 0, 0, 0⟩ = 10 ∧
    ([⟨"1", "Dup", .RB, "AA", none⟩, ⟨"2", "Solo", .RB, "AA", none⟩] :
        List Player).Sublist
      [⟨"1", "Dup", .RB, "AA", none⟩, ⟨"1", "Dup", .RB, "AA", none⟩,
       ⟨"2", "Solo", .RB, "AA", none⟩] ∧
    FeasibleLineup ⟨0, 2, 0, 0, 0, 0, 0⟩
      [⟨"1", "Dup", .RB, "AA", none⟩, ⟨"2", "Solo", .RB, "AA", none⟩] ∧
    sumVor (fun s => if s = "1" then 10 else 5)
      [⟨"1", "Dup", .RB, "AA", none⟩, ⟨"2", "Solo", .RB, "AA", none⟩] = 15 := by
  refine ⟨?_, ?_, ?_, ?_⟩
  · with_unfolding_all decide
  · with_unfolding_all decide
  · refine ⟨[⟨"1", "Dup", .RB, "AA", none⟩, ⟨"2", "Solo", .RB, "AA", none⟩],
      [], by simp, ?_, by simp, by simp⟩
    intro pos
    cases pos <;> with_unfolding_all decide
  · with_unfolding_all decide

/-! ### Trade analyzer: the acceptance threshold (C1) and output shape (C6) -/

lemma roundHalfEven_ge_floor (x : ℚ) : ⌊x⌋ ≤ roundHalfEven x := by
  unfold roundHalfEven
  dsimp only
  split
  · exact le_refl _
  · split
    · omega
    · split
      · exact le_refl _
      · omega

lemma pyRound1_ge_one {q : ℚ} (h : 1 ≤ q) : 1 ≤ pyRound1 q := by
  unfold pyRound1
  have h10 : (10:ℤ) ≤ ⌊10 * q⌋ := Int.le_floor.mpr (by push_cast; linarith)
  have h2 : (10:ℤ) ≤ roundHalfEven (10 * q) :=
    le_trans h10 (roundHalfEven_ge_floor _)
  rw [le_div_iff₀ (by norm_num : (0:ℚ) < 10)]
  norm_num
  exact_mod_cast h2

/-- Any trade `_evaluate_trade` emits records both rounded improvements at or
above the acceptance threshold. -/
lemma evaluate_trade_scores {mp tp : List Player} {mr tr : Roster}
    {vor : String → ℚ} {slots : RosterSlots} {t : TradeIdea}
    (h : _evaluate_trade mp tp mr tr vor slots = some t) :
    min_improvement_threshold ≤ t.score_me ∧
    min_improvement_threshold ≤ t.score_them := by
  unfold _evaluate_trade at h
  dsimp only at h
  split at h
  case isTrue hcond =>
    rw [Option.some_inj] at h
    have h1 : t.score_me = pyRound1
        (calculate_lineup_vor ((mr.players.filter (fun p =>
            p.id ∉ mp.map (·.id))) ++ tp) vor slots
          - calculate_lineup_vor mr.players vor slots) := by
      rw [← h]
    have h2 : t.score_them = pyRound1
        (calculate_lineup_vor ((tr.players.filter (fun p =>
            p.id ∉ tp.map (·.id))) ++ mp) vor slots
          - calculate_lineup_vor tr.players vor slots) := by
      rw [← h]
    have hthr : min_improvement_threshold = (1:ℚ) := rfl
    rw [h1, h2, hthr]
    exact ⟨pyRound1_ge_one (hthr ▸ hcond.1), pyRound1_ge_one (hthr ▸ hcond.2)⟩
  case isFalse => exact absurd h (by simp)

/-- C1: every TradeIdea returned by `generate_trade_ideas` records both
improvements at or above the minimum-improvement threshold (1.0); a candidate
failing the threshold on either side is never emitted. -/
theorem C1_trade_threshold (my_roster : Roster) (all_rosters : List Roster)
    (vor_values : String → ℚ) (roster_slots : RosterSlots)
    (max_players_per_side : ℕ) (consider_2_for_1 : Bool) (t : TradeIdea)
    (ht : t ∈ generate_trade_ideas my_roster all_rosters vor_values
      roster_slots max_players_per_side consider_2_for_1) :
    min_improvement_threshold ≤ t.score_me ∧
    min_improvement_threshold ≤ t.score_them := by
  unfold generate_trade_ideas at ht
  dsimp only at ht
  have ht2 := List.mem_of_mem_take ht
  have ht3 := ((sortDescBy_perm (fun t : TradeIdea =>
    t.score_me + t.score_them) _).mem_iff).mp ht2
  obtain ⟨o, _, hto⟩ := List.mem_flatMap.mp ht3
  unfold _generate_team_trades at hto
  dsimp only at hto
  rcases List.mem_append.mp hto with h | h
  · rcases List.mem_append.mp h with h | h
    · unfold _generate_single_player_trades at h
      obtain ⟨mp, _, h⟩ := List.mem_flatMap.mp h
      obtain ⟨tp, _, heval⟩ := List.mem_filterMap.mp h
      exact evaluate_trade_scores heval
    · by_cases hc : consider_2_for_1 ∧ 2 ≤ max_players_per_side
      · rw [if_pos hc] at h
        unfold _generate_uneven_trades at h
        rcases List.mem_append.mp h with h | h
        · obtain ⟨mc, _, h⟩ := List.mem_flatMap.mp h
          obtain ⟨tp, _, heval⟩ := List.mem_filterMap.mp h
          exact evaluate_trade_scores heval
        · obtain ⟨mp, _, h⟩ := List.mem_flatMap.mp h
          obtain ⟨tc, _, heval⟩ := List.mem_filterMap.mp h
          exact evaluate_trade_scores heval
      · rw [if_neg hc] at h
        exact absurd h (List.not_mem_nil t)
  · by_cases hc : 2 ≤ max_players_per_side
    · rw [if_pos hc] at h
      unfold _generate_even_multi_player_trades at h
      obtain ⟨mc, _, h⟩ := List.mem_flatMap.mp h
      obtain ⟨tc, _, heval⟩ := List.mem_filterMap.mp h
      exact evaluate_trade_scores heval
    · rw [if_neg hc] at h
      exact absurd h (List.not_mem_nil t)

/-- C6: the returned trade list never exceeds 50 entries and is ordered by
combined benefit `score_me + score_them` descending. -/
theorem C6_capped_and_sorted (my_roster : Roster) (all_rosters : List Roster)
    (vor_values : String → ℚ) (roster_slots : RosterSlots)
    (max_players_per_side : ℕ) (consider_2_for_1 : Bool) :
    (generate_trade_ideas my_roster all_rosters vor_values roster_slots
      max_players_per_side consider_2_for_1).length ≤ 50 ∧
    (generate_trade_ideas my_roster all_rosters vor_values roster_slots
      max_players_per_side consider_2_for_1).Pairwise (fun a b =>
        b.score_me + b.score_them ≤ a.score_me + a.score_them) := by
  constructor
  · unfold generate_trade_ideas
    dsimp only
    rw [List.length_take]
    exact min_le_left _ _
  · unfold generate_trade_ideas
    dsimp only
    exact List.Pairwise.sublist (List.take_sublist _ _)
      (sortDescBy_sorted (fun t : TradeIdea => t.score_me + t.score_them) _)

/-- Witness for C1: a concrete two-team league in which trading Alice (QB,
VOR 10) for Rob (RB, VOR 9) improves both optimal lineups by at least the
threshold; the emitted idea records scores 7 and 8. -/
theorem C1_trade_threshold_witness :
    min_improvement_threshold ≤ (⟨[⟨"Alice", .QB, 10⟩], [⟨"Rob", .RB, 9⟩],
      7, 8, "You get RB help, they get QB depth; Slight advantage to them"⟩ :
        TradeIdea).score_me ∧
    min_improvement_threshold ≤ (⟨[⟨"Alice", .QB, 10⟩], [⟨"Rob", .RB, 9⟩],
      7, 8, "You get RB help, they get QB depth; Slight advantage to them"⟩ :
        TradeIdea).score_them :=
  C1_trade_threshold
    ⟨"T1", [⟨"q1", "Alice", .QB, "AA", none⟩,
            ⟨"q2", "Amy", .QB, "AB", none⟩]⟩
    [⟨"T1", [⟨"q1", "Alice", .QB, "AA", none⟩,
             ⟨"q2", "Amy", .QB, "AB", none⟩]⟩,
     ⟨"T2", [⟨"r1", "Rob", .RB, "CC", none⟩,
             ⟨"r2", "Ray", .RB, "CD", none⟩]⟩]
    (fun s => if s = "q1" then 10 else if s = "q2" then 8
      else if s = "r1" then 9 else 7)
    ⟨1, 1, 0, 0, 0, 0, 0⟩ 1 false
    ⟨[⟨"Alice", .QB, 10⟩], [⟨"Rob", .RB, 9⟩], 7, 8,
      "You get RB help, they get QB depth; Slight advantage to them"⟩
    (by with_unfolding_all decide)

/-! ### C9: the baseline map's keys and the DEF position -/

lemma baselinesLoop_keys (fps : List FantasyProPlayer) (slots : RosterSlots)
    (nt : ℤ) (buf : ℚ) :
    ∀ (L : List Pos) (r : List (Pos × ℚ)),
      baselinesLoop fps slots nt buf L = .ok r → r.map Prod.fst = L := by
  intro L
  induction L with
  | nil =>
    intro r h
    simp only [baselinesLoop] at h
    cases h
    rfl
  | cons p rest ih =>
    intro r h
    simp only [baselinesLoop, Bind.bind] at h
    cases hb : _calculate_position_baseline p (rankedGroup p fps) slots nt buf with
    | error e => rw [hb] at h; exact absurd h (by simp [Except.bind])
    | ok b =>
      rw [hb] at h
      cases hr : baselinesLoop fps slots nt buf rest with
      | error e =>
        rw [hr] at h
        exact absurd h (by simp [Except.bind])
      | ok rr =>
        rw [hr] at h
        simp only [Except.bind, Except.ok.injEq] at h
        rw [← h, List.map_cons, ih rr hr]

/-- C9: whenever `calculate_replacement_baselines` succeeds, the returned
baseline map has exactly the keys QB, RB, WR, TE, K, DST; consequently a DEF
player with a resolved projection link gets baseline `0.0` in
`calculate_vor`'s loop, so its VOR is its full projected points clamped at
zero. -/
theorem C9_def_full_points (fps : List FantasyProPlayer)
    (slots : RosterSlots) (nt : ℤ) (buf : Option ℚ) (bl : List (Pos × ℚ))
    (hok : calculate_replacement_baselines fps slots nt buf = .ok bl) :
    bl.map Prod.fst = positionOrder ∧
    ∀ (te : Bool) (p : Player) (s : String) (fp : FantasyProPlayer),
      p.position = .DEF → p.fp_slug = some s → s ≠ "" →
      fp_lookup fps s = some fp →
      playerVor bl fps te p = max fp.ros_points 0 := by
  unfold calculate_replacement_baselines at hok
  have hkeys : bl.map Prod.fst = positionOrder :=
    baselinesLoop_keys fps slots nt (buf.getD (1/10)) positionOrder bl hok
  refine ⟨hkeys, ?_⟩
  intro te p s fp hpos hslug hs hlook
  unfold playerVor
  rw [hslug]
  dsimp only
  rw [if_pos hs, hlook]
  have hfind : bl.find? (fun kv => kv.1 = p.position) = none := by
    rw [List.find?_eq_none]
    intro kv hkv
    simp only [decide_eq_true_eq, hpos]
    intro hc
    have hmem : kv.1 ∈ positionOrder := by
      rw [← hkeys]
      exact List.mem_map_of_mem Prod.fst hkv
    rw [hc] at hmem
    exact absurd hmem (by decide)
  rw [hfind]
  simp [hpos]

/-- Witness for C9: a lone DEF projection resolves and keeps its full 95
projected points as VOR (all baselines are 0 because no QB/RB/WR/TE/K/DST
players were projected). -/
theorem C9_def_full_points_witness :
    ([(Pos.QB, (0:ℚ)), (Pos.RB, 0), (Pos.WR, 0), (Pos.TE, 0), (Pos.K, 0),
      (Pos.DST, 0)].map Prod.fst = positionOrder) ∧
    ∀ (te : Bool) (p : Player) (s : String) (fp : FantasyProPlayer),
      p.position = .DEF → p.fp_slug = some s → s ≠ "" →
      fp_lookup [⟨"Bears DST", .DEF, "CHI", some "bears", 1, 95⟩] s = some fp →
      playerVor [(Pos.QB, (0:ℚ)), (Pos.RB, 0), (Pos.WR, 0), (Pos.TE, 0),
        (Pos.K, 0), (Pos.DST, 0)]
        [⟨"Bears DST", .DEF, "CHI", some "bears", 1, 95⟩] te p
        = max fp.ros_points 0 :=
  C9_def_full_points [⟨"Bears DST", .DEF, "CHI", some "bears", 1, 95⟩]
    ⟨1, 2, 2, 1, 1, 0, 6⟩ 12 none
    [(Pos.QB, 0), (Pos.RB, 0), (Pos.WR, 0), (Pos.TE, 0), (Pos.K, 0),
      (Pos.DST, 0)]
    (by with_unfolding_all decide)

end FantasyTrade
